import Mathlib

/-!
# objectdb: chunked object transfer over HTTP

A shallow embedding of `objectdb.go`: the two request handlers `dataPut` and
`dataGet`, the helper `storeChunk`, and the dispatcher `ServeHTTP` with its
deferred `recover`.

* The Cassandra session is a `Store` (two keyed tables) together with a fault
  oracle: the k-th query a request issues fails with an I/O error when the
  oracle says so.  Every query issued is appended to a log.
* The `http.ResponseWriter` is the list of calls made on it
  (`Header().Set`, `WriteHeader`, `Write`), in order.
* A Go `panic` is the `Except.error` branch of a handler result.
* `log.Printf` calls have no effect and are left out, except for the one in
  `dataGet` whose argument expression can itself panic.
-/

namespace ObjectDB

/-- A byte string; each element stands for one byte. -/
abbrev Bytes := List Nat

/-- Source constant `ChunkMaxSize = 1024 * 1024 * 8`. -/
def ChunkMaxSize : Nat := 1024 * 1024 * 8

deriving instance DecidableEq for Except

/-! ## Go standard library functions used by the handlers -/

/-- Go `strings.Split(s, sep)` for a one-character separator. -/
def Split (sep : Char) : List Char → List (List Char)
  | [] => [[]]
  | c :: cs =>
    if c = sep then [] :: Split sep cs
    else
      match Split sep cs with
      | [] => [[c]]
      | h :: t => (c :: h) :: t

/-- Go `strings.Join(parts, sep)` for a one-character separator. -/
def Join (sep : Char) : List (List Char) → List Char
  | [] => []
  | [p] => p
  | p :: q :: ps => p ++ sep :: Join sep (q :: ps)

/-- The two error kinds of Go `strconv.NumError`. -/
inductive NumError where
  | ErrSyntax
  | ErrRange
deriving DecidableEq, Repr

/-- Value of a decimal digit, if the character is one. -/
def digitVal (c : Char) : Option Nat :=
  if 48 ≤ c.toNat ∧ c.toNat ≤ 57 then some (c.toNat - 48) else none

/-- Digit loop of Go `strconv.ParseUint(s, 10, 64)`: left to right, stopping
at the first bad character or at the first overflow of 64 bits. -/
def parseUintLoop : List Char → Nat → Except NumError Nat
  | [], n => .ok n
  | c :: cs, n =>
    match digitVal c with
    | none => .error .ErrSyntax
    | some d =>
      if n ≥ (2 ^ 64 - 1) / 10 + 1 then .error .ErrRange
      else if n * 10 + d > 2 ^ 64 - 1 then .error .ErrRange
      else parseUintLoop cs (n * 10 + d)

/-- Go `strconv.ParseUint(s, 10, 64)`. -/
def ParseUint (s : List Char) : Except NumError Nat :=
  match s with
  | [] => .error .ErrSyntax
  | _ :: _ => parseUintLoop s 0

/-- Go `strconv.ParseInt(s, 10, 64)`: optional sign, decimal digits, result
in the signed 64-bit range. -/
def ParseInt (s : List Char) : Except NumError Int :=
  match s with
  | [] => .error .ErrSyntax
  | c :: cs =>
    let neg : Bool := c = '-'
    let digits := if c = '+' ∨ c = '-' then cs else c :: cs
    match ParseUint digits with
    | .error e => .error e
    | .ok un =>
      if neg = false ∧ un ≥ 2 ^ 63 then .error .ErrRange
      else if neg = true ∧ un > 2 ^ 63 then .error .ErrRange
      else .ok (if neg then -(un : Int) else (un : Int))

/-- One lowercase hexadecimal digit. -/
def hexDigit (n : Nat) : Char :=
  if n < 10 then Char.ofNat (48 + n) else Char.ofNat (87 + n)

/-- Go `hex.EncodeToString`: two hexadecimal digits per byte. -/
def hexEncodeToString : Bytes → List Char
  | [] => []
  | b :: bs => hexDigit (b / 16 % 16) :: hexDigit (b % 16) :: hexEncodeToString bs

/-- The bytes of a string (UTF-8). -/
def stringBytes (s : String) : Bytes :=
  (s.data.flatMap String.utf8EncodeChar).map UInt8.toNat

/-- Go `http.Header.Get`: the value stored under the key, or the empty string. -/
def headerGet (h : List (String × String)) (key : String) : String :=
  match h.lookup key with
  | some v => v
  | none => ""

/-! ## Data model -/

/-- A row of table `objects`, stored under the key `(bucket, name)`. -/
structure ObjectRow where
  content_length : Int
  created : Int
  metadata : List (String × String)
deriving DecidableEq, Repr

/-- The two tables of the keyspace, and the clock behind `dateOf(now())`. -/
structure Store where
  objects : String → String → Option ObjectRow
  chunks : String → String → Nat → Option Bytes
  clock : Int

/-- Errors a query can return: `gocql.ErrNotFound`, or any other failure
with its message. -/
inductive StoreErr where
  | ErrNotFound
  | Failure (msg : String)
deriving DecidableEq, Repr

/-- The queries the handlers send through `csSession`. -/
inductive StoreOp where
  | countObjects (bucket name : String)
  | selectObject (bucket name : String)
  | insertObject (bucket name : String) (contentLength : Int) (metadata : List (String × String))
  | selectChunk (bucket name : String) (num : Nat)
  | insertChunk (bucket name : String) (num : Nat) (data : Bytes)
deriving DecidableEq, Repr

/-- The calls a handler makes on its `http.ResponseWriter`. -/
inductive RespEvent where
  | SetHeader (key value : String)
  | WriteHeader (code : Nat)
  | Write (data : Bytes)
deriving DecidableEq, Repr

/-- The values the handlers panic with. -/
inductive PanicVal where
  | text (s : String)
  | store (e : StoreErr)
  | num (input : String) (e : NumError)
  | read (msg : String)
  | sliceBounds (high len : Nat)
deriving DecidableEq, Repr

/-- An HTTP request as the handlers use it.  `BodyErr` is the error, other
than `io.EOF`, with which the body stream ends after delivering `Body`
(`none` when it ends with `io.EOF`). -/
structure Request where
  Method : String
  Path : String
  Header : List (String × String)
  Body : Bytes
  BodyErr : Option String

/-- What one request runs against and leaves behind: the store, the fault
oracle (query number k of this request fails with the given message), the
queries issued so far and the calls made on the response writer so far. -/
structure World where
  store : Store
  faults : Nat → Option String
  ops : List StoreOp
  resp : List RespEvent

/-- The world at the start of a request. -/
def World.start (st : Store) (faults : Nat → Option String) : World :=
  { store := st, faults := faults, ops := [], resp := [] }

/-! ## Queries -/

/-- Query `SELECT count(*) FROM objects WHERE bucket = ? and name = ?`. -/
def queryCount (w : World) (bucket name : String) : Except StoreErr Nat × World :=
  let w1 := { w with ops := w.ops ++ [StoreOp.countObjects bucket name] }
  match w.faults w.ops.length with
  | some msg => (.error (.Failure msg), w1)
  | none => (.ok (if (w.store.objects bucket name).isSome then 1 else 0), w1)

/-- Query `SELECT content_length, created, metadata FROM objects WHERE ...`. -/
def queryObject (w : World) (bucket name : String) : Except StoreErr ObjectRow × World :=
  let w1 := { w with ops := w.ops ++ [StoreOp.selectObject bucket name] }
  match w.faults w.ops.length with
  | some msg => (.error (.Failure msg), w1)
  | none =>
    match w.store.objects bucket name with
    | none => (.error .ErrNotFound, w1)
    | some row => (.ok row, w1)

/-- Query `INSERT INTO objects (...) VALUES (?, ?, ?, dateOf(now()), ?)`. -/
def execInsertObject (w : World) (bucket name : String) (contentLength : Int)
    (metadata : List (String × String)) : Option StoreErr × World :=
  let op := StoreOp.insertObject bucket name contentLength metadata
  match w.faults w.ops.length with
  | some msg => (some (.Failure msg), { w with ops := w.ops ++ [op] })
  | none =>
    let row : ObjectRow :=
      { content_length := contentLength, created := w.store.clock, metadata := metadata }
    (none, { w with
      ops := w.ops ++ [op]
      store := { w.store with
        objects := fun b n => if b = bucket ∧ n = name then some row else w.store.objects b n } })

/-- Query `SELECT data FROM chunks WHERE bucket = ? AND name = ? AND num = ?`. -/
def queryChunk (w : World) (bucket name : String) (num : Nat) : Except StoreErr Bytes × World :=
  let w1 := { w with ops := w.ops ++ [StoreOp.selectChunk bucket name num] }
  match w.faults w.ops.length with
  | some msg => (.error (.Failure msg), w1)
  | none =>
    match w.store.chunks bucket name num with
    | none => (.error .ErrNotFound, w1)
    | some data => (.ok data, w1)

/-- Query `INSERT INTO chunks (bucket, name, num, data) VALUES (?, ?, ?, ?)`. -/
def execInsertChunk (w : World) (bucket name : String) (num : Nat) (data : Bytes) :
    Option StoreErr × World :=
  let op := StoreOp.insertChunk bucket name num data
  match w.faults w.ops.length with
  | some msg => (some (.Failure msg), { w with ops := w.ops ++ [op] })
  | none =>
    (none, { w with
      ops := w.ops ++ [op]
      store := { w.store with
        chunks := fun b n i =>
          if b = bucket ∧ n = name ∧ i = num then some data else w.store.chunks b n i } })

/-! ## Handlers -/

/-- The first lines of both `dataGet` and `dataPut`: split the URL path on
`/`, panic when there are fewer than three parts, take part 1 as the bucket
and join the parts from index 2 on as the object name. -/
def splitPath (path : String) : Except PanicVal (String × String) :=
  let pathParts := Split '/' path.data
  if pathParts.length < 3 then .error (.text "bad bucket and object name")
  else .ok (String.mk (pathParts.getD 1 []), String.mk (Join '/' (pathParts.drop 2)))

/-- Source `storeChunk`: nothing to do for an empty buffer; otherwise insert
the buffer as chunk `chunkNum`, and reset the buffer only when the insert
succeeded.  Returns the error and the buffer afterwards. -/
def storeChunk (w : World) (bucket objectName : String) (chunk : Bytes) (chunkNum : Nat) :
    Option StoreErr × Bytes × World :=
  if chunk.length = 0 then (none, chunk, w)
  else
    match execInsertChunk w bucket objectName chunkNum chunk with
    | (some e, w1) => (some e, chunk, w1)
    | (none, w1) => (none, [], w1)

/-- The `for` loop of `dataPut`.  Each round is one `io.CopyN(chunk, reader,
ChunkMaxSize)`: it appends up to `ChunkMaxSize` bytes of the remaining body
to the buffer and reports `io.EOF` (or the read error) when fewer were left.
The value `storeChunk` returns is dropped, as in the source.  The first
argument bounds the number of rounds; `none` means the bound was reached. -/
def putLoop : Nat → World → String → String → Bytes → Option String → Bytes → Nat →
    Option (Except PanicVal Unit × World)
  | 0, _, _, _, _, _, _, _ => none
  | fuel + 1, w, bucket, objectName, reader, readErr, chunk, chunkNum =>
    let got := reader.take ChunkMaxSize
    let reader1 := reader.drop ChunkMaxSize
    let chunk1 := chunk ++ got
    if got.length = ChunkMaxSize then
      -- err == nil
      if chunk1.length ≥ ChunkMaxSize then
        match storeChunk w bucket objectName chunk1 chunkNum with
        | (_, chunk2, w1) => putLoop fuel w1 bucket objectName reader1 readErr chunk2 (chunkNum + 1)
      else putLoop fuel w bucket objectName reader1 readErr chunk1 chunkNum
    else
      match readErr with
      | some msg => some (.error (.read msg), w)
      | none =>
        -- err == io.EOF
        match storeChunk w bucket objectName chunk1 chunkNum with
        | (_, _, w1) => some (.ok (), w1)

/-- Source `dataPut`. -/
def dataPut (w : World) (req : Request) : Option (Except PanicVal Unit × World) :=
  match splitPath req.Path with
  | .error p => some (.error p, w)
  | .ok (bucket, objectName) =>
    match queryCount w bucket objectName with
    | (.error e, w1) => some (.error (.store e), w1)
    | (.ok objectExist, w1) =>
      if objectExist = 1 then some (.error (.text "object exist"), w1)
      else
        let contentLengthHeader := headerGet req.Header "Content-Length"
        if contentLengthHeader = "" then
          some (.error (.text "missing header Content-Length"), w1)
        else
          match ParseInt contentLengthHeader.data with
          | .error e => some (.error (.num contentLengthHeader e), w1)
          | .ok contentLength =>
            let contentType := headerGet req.Header "Content-Type"
            let contentEncoding := headerGet req.Header "Content-Encoding"
            let metadata :=
              (if contentType ≠ "" then [("content-type", contentType)] else []) ++
              (if contentEncoding ≠ "" then [("content-encoding", contentEncoding)] else [])
            match execInsertObject w1 bucket objectName contentLength metadata with
            | (some e, w2) => some (.error (.store e), w2)
            | (none, w2) =>
              putLoop (req.Body.length + 1) w2 bucket objectName req.Body req.BodyErr [] 0

/-- The `for` loop of `dataGet`, with the number of rounds left as first
argument.  The log line evaluates `hex.EncodeToString(data)[:100]` before
the chunk is written, which panics when the hex string is shorter than 100. -/
def getLoop : Nat → World → String → String → Nat → Except PanicVal Unit × World
  | 0, w, _, _, _ => (.ok (), w)
  | n + 1, w, bucket, objectName, chunkNum =>
    match queryChunk w bucket objectName chunkNum with
    | (.error e, w1) => (.error (.store e), w1)
    | (.ok data, w1) =>
      if (hexEncodeToString data).length < 100 then
        (.error (.sliceBounds 100 (hexEncodeToString data).length), w1)
      else
        getLoop n { w1 with resp := w1.resp ++ [RespEvent.Write data] } bucket objectName
          (chunkNum + 1)

/-- Number of chunks `dataGet` reads for a stored length (Go integer
division and remainder truncate toward zero). -/
def chunkCount (length : Int) : Int :=
  Int.tdiv length ChunkMaxSize + (if Int.tmod length ChunkMaxSize > 0 then 1 else 0)

/-- Source `dataGet`. -/
def dataGet (w : World) (req : Request) : Except PanicVal Unit × World :=
  match splitPath req.Path with
  | .error p => (.error p, w)
  | .ok (bucket, objectName) =>
    match queryObject w bucket objectName with
    | (.error .ErrNotFound, w1) =>
      (.ok (), { w1 with resp := w1.resp ++
        [RespEvent.WriteHeader 404, RespEvent.Write (stringBytes "Object Not Found\n")] })
    | (.error e, w1) => (.error (.store e), w1)
    | (.ok row, w1) =>
      let contentType := headerGet row.metadata "content-type"
      let hdrs :=
        [RespEvent.SetHeader "Content-Length" (toString row.content_length)] ++
        (if contentType ≠ "" then [RespEvent.SetHeader "Content-Type" contentType] else [])
      let w2 := { w1 with resp := w1.resp ++ hdrs ++ [RespEvent.WriteHeader 200] }
      getLoop (chunkCount row.content_length).toNat w2 bucket objectName 0

/-- The text `%s` prints for a panic value: the string itself, or the
`Error()` text of the error (`gocql.ErrNotFound` is `not found`; a
`strconv.NumError` quotes its input, written here with plain double quotes;
the slice panic has the text the Go runtime prints since Go 1.12). -/
def PanicVal.message : PanicVal → String
  | .text s => s
  | .store .ErrNotFound => "not found"
  | .store (.Failure msg) => msg
  | .num input .ErrSyntax => "strconv.ParseInt: parsing \"" ++ input ++ "\": invalid syntax"
  | .num input .ErrRange => "strconv.ParseInt: parsing \"" ++ input ++ "\": value out of range"
  | .read msg => msg
  | .sliceBounds high len =>
    "runtime error: slice bounds out of range [:" ++ toString high ++ "] with length " ++
      toString len

/-- The deferred function of `ServeHTTP`: on a panic, `WriteHeader(500)` and
the line `err: ...`. -/
def recoverPanic (r : Except PanicVal Unit × World) : World :=
  match r with
  | (.ok (), w) => w
  | (.error p, w) =>
    { w with resp := w.resp ++
      [RespEvent.WriteHeader 500, RespEvent.Write (stringBytes ("err: " ++ p.message ++ "\n"))] }

/-- Source `ServeHTTP`. -/
def ServeHTTP (w : World) (req : Request) : Option World :=
  if req.Method = "PUT" then (dataPut w req).map recoverPanic
  else if req.Method = "GET" then some (recoverPanic (dataGet w req))
  else
    some (recoverPanic
      (.error (.text ("Invalid Method: " ++ req.Method)),
        { w with resp := w.resp ++ [RespEvent.WriteHeader 405] }))

/-! ## What the client sees -/

/-- Status code sent: the code of the first `WriteHeader` call, or 200 when a
`Write` comes first or the handler returns without either (`net/http` sends
the header once; later `WriteHeader` calls change nothing). -/
def statusSent : List RespEvent → Nat
  | [] => 200
  | .SetHeader _ _ :: es => statusSent es
  | .WriteHeader code :: _ => code
  | .Write _ :: _ => 200

/-- All bytes passed to `Write`, in order. -/
def bodyWritten : List RespEvent → Bytes
  | [] => []
  | .Write data :: es => data ++ bodyWritten es
  | _ :: es => bodyWritten es

/-! ## Sample stores and requests -/

/-- A store with no rows. -/
def emptyStore : Store :=
  { objects := fun _ _ => none, chunks := fun _ _ _ => none, clock := 0 }

/-- A fault oracle under which every query succeeds. -/
def noFaults : Nat → Option String := fun _ => none

/-- A fault oracle under which exactly query number `k` fails. -/
def faultAt (k : Nat) : Nat → Option String :=
  fun i => if i = k then some "no hosts available" else none

/-- A store holding one object row `b1/obj1` of the given length and the
given chunk rows for it (chunk `i` is the `i`-th list). -/
def storeWith (length : Int) (chunks : List Bytes) : Store :=
  { objects := fun b n =>
      if b = "b1" ∧ n = "obj1" then
        some { content_length := length, created := 0, metadata := [] }
      else none
    chunks := fun b n i => if b = "b1" ∧ n = "obj1" then chunks.get? i else none
    clock := 0 }

/-- A `PUT` request with only a `Content-Length` header. -/
def putRequest (path contentLength : String) (body : Bytes) : Request :=
  { Method := "PUT", Path := path, Header := [("Content-Length", contentLength)],
    Body := body, BodyErr := none }

/-- A `GET` request. -/
def getRequest (path : String) : Request :=
  { Method := "GET", Path := path, Header := [], Body := [], BodyErr := none }

/-! ## Lemmas on path splitting -/

theorem Split_ne_nil (sep : Char) (s : List Char) : Split sep s ≠ [] := by
  induction s with
  | nil => simp [Split]
  | cons c cs ih =>
    unfold Split
    split
    · simp
    · split
      · simp
      · simp

theorem Split_cons_sep (sep : Char) (s : List Char) :
    Split sep (sep :: s) = [] :: Split sep s := by
  simp [Split]

theorem Split_append_sep (sep : Char) (a b : List Char) (ha : sep ∉ a) :
    Split sep (a ++ sep :: b) = a :: Split sep b := by
  induction a with
  | nil => simp [Split]
  | cons c cs ih =>
    have hc : c ≠ sep := fun h => ha (by simp [h])
    have hcs : sep ∉ cs := fun h => ha (by simp [h])
    simp [Split, hc, ih hcs]

theorem Join_Split (sep : Char) (s : List Char) : Join sep (Split sep s) = s := by
  induction s with
  | nil => simp [Split, Join]
  | cons c cs ih =>
    unfold Split
    split
    · rename_i h
      cases hs : Split sep cs with
      | nil => exact absurd hs (Split_ne_nil sep cs)
      | cons p ps =>
        rw [hs] at ih
        simp [Join, ih, h]
    · cases hs : Split sep cs with
      | nil => exact absurd hs (Split_ne_nil sep cs)
      | cons p ps =>
        rw [hs] at ih
        cases ps with
        | nil => simp [Join] at ih ⊢; exact ih
        | cons q qs => simp [Join] at ih ⊢; exact ih

theorem Split_length (sep : Char) (s : List Char) :
    (Split sep s).length = s.count sep + 1 := by
  induction s with
  | nil => simp [Split]
  | cons c cs ih =>
    unfold Split
    split
    · rename_i h
      simp [ih, h]
    · rename_i h
      cases hs : Split sep cs with
      | nil => exact absurd hs (Split_ne_nil sep cs)
      | cons p ps =>
        rw [hs] at ih
        simp only [List.length_cons] at ih ⊢
        rw [List.count_cons_of_ne (Ne.symm h)]
        exact ih

theorem splitPath_join (bucket name : String) (hb : '/' ∉ bucket.data) :
    splitPath ("/" ++ bucket ++ "/" ++ name) = .ok (bucket, name) := by
  have hd : ("/" ++ bucket ++ "/" ++ name).data = '/' :: (bucket.data ++ '/' :: name.data) := by
    simp [String.data_append]
  unfold splitPath
  rw [hd, Split_cons_sep, Split_append_sep _ _ _ hb]
  cases hs : Split '/' name.data with
  | nil => exact absurd hs (Split_ne_nil _ _)
  | cons p ps =>
    have hj := Join_Split '/' name.data
    rw [hs] at hj
    simp [hj]

theorem splitPath_error_iff (path : String) :
    (∃ p, splitPath path = .error p) ↔ path.data.count '/' < 2 := by
  unfold splitPath
  simp only [Split_length]
  constructor
  · intro h
    obtain ⟨p, hp⟩ := h
    by_contra hc
    have : ¬ (List.count '/' path.data + 1 < 3) := by omega
    simp [this] at hp
  · intro h
    have : List.count '/' path.data + 1 < 3 := by omega
    simp [this]

/-! ## Lemmas on the write loop -/

theorem ChunkMaxSize_pos : 0 < ChunkMaxSize := by decide

theorem storeChunk_world (w : World) (bucket name : String) (chunk : Bytes) (k : Nat) :
    (storeChunk w bucket name chunk k).2.2.resp = w.resp ∧
    (storeChunk w bucket name chunk k).2.2.faults = w.faults ∧
    ((storeChunk w bucket name chunk k).2.2.ops = w.ops ∨
      (storeChunk w bucket name chunk k).2.2.ops =
        w.ops ++ [StoreOp.insertChunk bucket name k chunk]) := by
  unfold storeChunk execInsertChunk
  split
  · simp
  · cases hf : w.faults w.ops.length <;> simp

theorem putLoop_total (fuel : Nat) :
    ∀ (w : World) (bucket name : String) (reader : Bytes) (readErr : Option String)
      (chunk : Bytes) (k : Nat), reader.length < fuel →
      ∃ r w1 rest, putLoop fuel w bucket name reader readErr chunk k = some (r, w1) ∧
        w1.resp = w.resp ∧ w1.faults = w.faults ∧ w1.ops = w.ops ++ rest ∧
        ∀ op ∈ rest, ∃ i d, op = StoreOp.insertChunk bucket name i d := by
  induction fuel with
  | zero => intro w bucket name reader readErr chunk k h; omega
  | succ fuel ih =>
    intro w bucket name reader readErr chunk k h
    unfold putLoop
    simp only
    by_cases hfull : (List.take ChunkMaxSize reader).length = ChunkMaxSize
    · have hlen : ChunkMaxSize ≤ reader.length := by
        rw [List.length_take] at hfull; omega
      have hdrop : (List.drop ChunkMaxSize reader).length < fuel := by
        have := ChunkMaxSize_pos
        rw [List.length_drop]; omega
      have hge : (chunk ++ List.take ChunkMaxSize reader).length ≥ ChunkMaxSize := by
        rw [List.length_append, hfull]; omega
      rw [if_pos hfull, if_pos hge]
      have hsc := storeChunk_world w bucket name (chunk ++ List.take ChunkMaxSize reader) k
      rcases hst : storeChunk w bucket name (chunk ++ List.take ChunkMaxSize reader) k with
        ⟨e, c2, w1⟩
      rw [hst] at hsc
      simp only at hsc ⊢
      obtain ⟨r, w2, rest, hrun, hresp, hfaults, hops, hall⟩ :=
        ih w1 bucket name (List.drop ChunkMaxSize reader) readErr c2 (k + 1) hdrop
      obtain ⟨h1, h2, h3⟩ := hsc
      rcases h3 with h3 | h3
      · exact ⟨r, w2, rest, hrun, by rw [hresp, h1], by rw [hfaults, h2], by rw [hops, h3], hall⟩
      · refine ⟨r, w2, StoreOp.insertChunk bucket name k
            (chunk ++ List.take ChunkMaxSize reader) :: rest, hrun, by rw [hresp, h1],
          by rw [hfaults, h2], by rw [hops, h3]; simp, ?_⟩
        intro op hop
        rcases List.mem_cons.mp hop with h | h
        · exact ⟨_, _, h⟩
        · exact hall op h
    · rw [if_neg hfull]
      cases readErr with
      | some msg => exact ⟨_, _, [], rfl, rfl, rfl, by simp, by simp⟩
      | none =>
        have hsc := storeChunk_world w bucket name (chunk ++ List.take ChunkMaxSize reader) k
        rcases hst : storeChunk w bucket name (chunk ++ List.take ChunkMaxSize reader) k with
          ⟨e, c2, w1⟩
        rw [hst] at hsc
        simp only at hsc ⊢
        obtain ⟨h1, h2, h3⟩ := hsc
        rcases h3 with h3 | h3
        · exact ⟨_, _, [], rfl, h1, h2, by simp [h3], by simp⟩
        · exact ⟨_, _, [_], rfl, h1, h2, h3, by simp⟩

theorem Split_parts (sep : Char) (s : List Char) : ∀ p ∈ Split sep s, sep ∉ p := by
  induction s with
  | nil => simp [Split]
  | cons c cs ih =>
    unfold Split
    split
    · intro p hp
      rcases List.mem_cons.mp hp with h | h
      · simp [h]
      · exact ih p h
    · rename_i hc
      cases hs : Split sep cs with
      | nil => exact absurd hs (Split_ne_nil sep cs)
      | cons q qs =>
        rw [hs] at ih
        intro p hp
        rcases List.mem_cons.mp hp with h | h
        · have hq := ih q (by simp)
          rw [h]
          intro hmem
          rcases List.mem_cons.mp hmem with h1 | h1
          · exact hc h1.symm
          · exact hq h1
        · exact ih p (by simp [h])

theorem splitPath_ok_shape (path bucket name : String)
    (h : splitPath path = .ok (bucket, name)) :
    ∃ pre, '/' ∉ pre ∧ '/' ∉ bucket.data ∧
      path.data = pre ++ '/' :: (bucket.data ++ '/' :: name.data) := by
  unfold splitPath at h
  have hj := Join_Split '/' path.data
  have hp := Split_parts '/' path.data
  match hs : Split '/' path.data with
  | [] => exact absurd hs (Split_ne_nil _ _)
  | [p0] => rw [hs] at h; simp at h
  | [p0, p1] => rw [hs] at h; simp at h
  | p0 :: p1 :: p2 :: ps =>
    rw [hs] at h hj hp
    simp at h
    obtain ⟨hb, hn⟩ := h
    refine ⟨p0, hp p0 (by simp), ?_, ?_⟩
    · exact hp p1 (by simp)
    · rw [← hj]
      simp [Join]

theorem ParseInt_range (s : List Char) (v : Int) (h : ParseInt s = .ok v) :
    -(2 ^ 63 : Int) ≤ v ∧ v < 2 ^ 63 := by
  unfold ParseInt at h
  cases s with
  | nil => simp at h
  | cons c cs =>
    simp only at h
    cases hu : ParseUint (if c = '+' ∨ c = '-' then cs else c :: cs) with
    | error e => rw [hu] at h; simp at h
    | ok un =>
      rw [hu] at h
      simp only at h
      split at h
      · simp at h
      · split at h
        · simp at h
        · rename_i h1 h2
          have hv : v = if (decide (c = '-')) = true then -(un : Int) else (un : Int) := by
            injection h with h; exact h.symm
          by_cases hneg : c = '-'
          · simp [hneg] at h2 hv
            subst hv
            constructor <;> omega
          · simp [hneg] at h1 hv
            subst hv
            constructor <;> omega

theorem queryCount_snd (w : World) (bucket name : String) :
    (queryCount w bucket name).2 =
      { w with ops := w.ops ++ [StoreOp.countObjects bucket name] } := by
  unfold queryCount
  cases w.faults w.ops.length <;> rfl

theorem queryObject_snd (w : World) (bucket name : String) :
    (queryObject w bucket name).2 =
      { w with ops := w.ops ++ [StoreOp.selectObject bucket name] } := by
  unfold queryObject
  cases w.faults w.ops.length with
  | some m => rfl
  | none => simp only; cases w.store.objects bucket name <;> rfl

theorem execInsertObject_world (w : World) (bucket name : String) (cl : Int)
    (md : List (String × String)) :
    (execInsertObject w bucket name cl md).2.ops =
      w.ops ++ [StoreOp.insertObject bucket name cl md] ∧
    (execInsertObject w bucket name cl md).2.resp = w.resp ∧
    (execInsertObject w bucket name cl md).2.faults = w.faults := by
  unfold execInsertObject
  cases w.faults w.ops.length <;> simp

/-- Every run of `dataPut` on a well-formed path ends; it leaves the response
writer untouched, starts with the count lookup, and any further query is the
metadata insert carrying the parsed `Content-Length`, or a chunk insert. -/
theorem dataPut_run (w : World) (req : Request) (bucket name : String)
    (hsp : splitPath req.Path = .ok (bucket, name)) :
    ∃ r w1 rest, dataPut w req = some (r, w1) ∧ w1.resp = w.resp ∧
      w1.ops = w.ops ++ StoreOp.countObjects bucket name :: rest ∧
      ∀ op ∈ rest, (∃ i d, op = StoreOp.insertChunk bucket name i d) ∨
        (∃ cl md, op = StoreOp.insertObject bucket name cl md ∧
          ParseInt (headerGet req.Header "Content-Length").data = .ok cl) := by
  unfold dataPut
  rw [hsp]
  simp only
  have h2 := queryCount_snd w bucket name
  rcases hq : queryCount w bucket name with ⟨res, w1⟩
  rw [hq] at h2
  simp only at h2
  subst h2
  cases res with
  | error e => exact ⟨_, _, [], rfl, rfl, rfl, by simp⟩
  | ok cnt =>
    simp only
    by_cases hc : cnt = 1
    · rw [if_pos hc]; exact ⟨_, _, [], rfl, rfl, rfl, by simp⟩
    · rw [if_neg hc]
      by_cases hh : headerGet req.Header "Content-Length" = ""
      · rw [if_pos hh]; exact ⟨_, _, [], rfl, rfl, rfl, by simp⟩
      · rw [if_neg hh]
        cases hpi : ParseInt (headerGet req.Header "Content-Length").data with
        | error e => exact ⟨_, _, [], rfl, rfl, rfl, by simp⟩
        | ok cl =>
          simp only
          generalize hmd : ((if headerGet req.Header "Content-Type" ≠ "" then
              [("content-type", headerGet req.Header "Content-Type")] else []) ++
            (if headerGet req.Header "Content-Encoding" ≠ "" then
              [("content-encoding", headerGet req.Header "Content-Encoding")] else [])) = md
          have hw := execInsertObject_world
            { w with ops := w.ops ++ [StoreOp.countObjects bucket name] } bucket name cl md
          rcases hx : execInsertObject
            { w with ops := w.ops ++ [StoreOp.countObjects bucket name] } bucket name cl md with
            ⟨e, w2⟩
          rw [hx] at hw
          simp only at hw
          obtain ⟨hops, hresp, -⟩ := hw
          cases e with
          | some e =>
            refine ⟨_, _, [StoreOp.insertObject bucket name cl md], rfl, hresp, ?_, ?_⟩
            · simp [hops]
            · intro op hop
              right
              exact ⟨cl, md, by simpa using hop, rfl⟩
          | none =>
            simp only
            obtain ⟨r, w3, rest, hrun, hr, -, ho, hall⟩ :=
              putLoop_total (req.Body.length + 1) w2 bucket name req.Body req.BodyErr [] 0
                (Nat.lt_succ_self _)
            refine ⟨r, w3, StoreOp.insertObject bucket name cl md :: rest, hrun, ?_, ?_, ?_⟩
            · rw [hr, hresp]
            · rw [ho, hops]; simp
            · intro op hop
              rcases List.mem_cons.mp hop with h | h
              · right; exact ⟨cl, md, h, rfl⟩
              · left; exact hall op h

theorem dataPut_exists_run (w : World) (req : Request) (bucket name : String)
    (hpath : splitPath req.Path = .ok (bucket, name))
    (hexists : (queryCount w bucket name).1 = .ok 1) :
    ∃ w1, dataPut w req = some (.error (.text "object exist"), w1) ∧
      w1.ops = w.ops ++ [StoreOp.countObjects bucket name] ∧
      w1.store = w.store ∧ w1.resp = w.resp := by
  unfold dataPut
  rw [hpath]
  simp only
  have h2 := queryCount_snd w bucket name
  rcases hq : queryCount w bucket name with ⟨res, w1⟩
  rw [hq] at h2 hexists
  simp only at h2 hexists
  subst h2 hexists
  exact ⟨_, rfl, rfl, rfl, rfl⟩

theorem getLoop_world (n : Nat) :
    ∀ (w : World) (bucket name : String) (k : Nat),
      (getLoop n w bucket name k).2.store = w.store ∧
      ∃ rest, (getLoop n w bucket name k).2.ops = w.ops ++ rest := by
  induction n with
  | zero => intro w bucket name k; exact ⟨rfl, [], by simp [getLoop]⟩
  | succ n ih =>
    intro w bucket name k
    unfold getLoop queryChunk
    cases w.faults w.ops.length with
    | some m => exact ⟨rfl, [_], rfl⟩
    | none =>
      simp only
      cases w.store.chunks bucket name k with
      | none => exact ⟨rfl, [_], rfl⟩
      | some data =>
        simp only
        split
        · exact ⟨rfl, [_], rfl⟩
        · obtain ⟨hs, rest, hr⟩ := ih
            { w with ops := w.ops ++ [StoreOp.selectChunk bucket name k],
                     resp := w.resp ++ [RespEvent.Write data] } bucket name (k + 1)
          exact ⟨hs, StoreOp.selectChunk bucket name k :: rest, by rw [hr]; simp⟩

theorem dataGet_ops (w : World) (req : Request) (bucket name : String)
    (hsp : splitPath req.Path = .ok (bucket, name)) :
    ∃ rest, (dataGet w req).2.ops = w.ops ++ StoreOp.selectObject bucket name :: rest := by
  unfold dataGet
  rw [hsp]
  simp only
  have h2 := queryObject_snd w bucket name
  rcases hq : queryObject w bucket name with ⟨res, w1⟩
  rw [hq] at h2
  simp only at h2
  subst h2
  cases res with
  | error e =>
    cases e with
    | ErrNotFound => exact ⟨[], rfl⟩
    | Failure m => exact ⟨[], rfl⟩
  | ok row =>
    simp only
    obtain ⟨-, rest, hr⟩ := getLoop_world (chunkCount row.content_length).toNat
      { w with ops := w.ops ++ [StoreOp.selectObject bucket name],
               resp := w.resp ++
                ([RespEvent.SetHeader "Content-Length" (toString row.content_length)] ++
                  (if headerGet row.metadata "content-type" ≠ "" then
                    [RespEvent.SetHeader "Content-Type" (headerGet row.metadata "content-type")]
                  else [])) ++ [RespEvent.WriteHeader 200] } bucket name 0
    exact ⟨rest, by rw [hr]; simp⟩

/-! ## Lemmas on the read loop -/

theorem hexEncodeToString_length (data : Bytes) :
    (hexEncodeToString data).length = 2 * data.length := by
  induction data with
  | nil => rfl
  | cons b bs ih => simp [hexEncodeToString, ih]; omega

theorem bodyWritten_append (xs ys : List RespEvent) :
    bodyWritten (xs ++ ys) = bodyWritten xs ++ bodyWritten ys := by
  induction xs with
  | nil => rfl
  | cons e es ih => cases e <;> simp [bodyWritten, ih]

theorem bodyWritten_writes (cs : Nat → Bytes) (l : List Nat) :
    bodyWritten (l.map (fun i => RespEvent.Write (cs i))) = l.flatMap cs := by
  induction l with
  | nil => rfl
  | cons a l ih => simp [bodyWritten, ih]

/-- The read loop when the chunks before `k + j` are present and long enough
for the log line, the queries succeed and chunk `k + j` is absent: the
chunks before are written in order and the loop panics with `ErrNotFound`. -/
theorem getLoop_missing (bucket name : String) (cs : Nat → Bytes) (j : Nat) :
    ∀ (n : Nat) (w : World) (k : Nat), j < n →
      (∀ i, i ≤ j → w.faults (w.ops.length + i) = none) →
      (∀ i, i < j → w.store.chunks bucket name (k + i) = some (cs (k + i)) ∧
        50 ≤ (cs (k + i)).length) →
      w.store.chunks bucket name (k + j) = none →
      getLoop n w bucket name k = (.error (.store .ErrNotFound),
        { w with
          ops := w.ops ++ (List.range (j + 1)).map (fun i => StoreOp.selectChunk bucket name (k + i))
          resp := w.resp ++ (List.range j).map (fun i => RespEvent.Write (cs (k + i))) }) := by
  induction j with
  | zero =>
    intro n w k hn hok _ habs
    cases n with
    | zero => omega
    | succ n =>
      have h0 := hok 0 (Nat.le_refl 0)
      simp only [Nat.add_zero] at h0 habs
      unfold getLoop queryChunk
      rw [h0]
      simp only
      rw [habs]
      simp [List.range_succ]
  | succ j ih =>
    intro n w k hn hok hpres habs
    cases n with
    | zero => omega
    | succ n =>
      have h0 := hok 0 (Nat.zero_le _)
      obtain ⟨hc, hl⟩ := hpres 0 (Nat.succ_pos _)
      simp only [Nat.add_zero] at h0 hc hl
      unfold getLoop queryChunk
      rw [h0]
      simp only
      rw [hc]
      simp only
      have hhex : ¬ (hexEncodeToString (cs k)).length < 100 := by
        rw [hexEncodeToString_length]; omega
      rw [if_neg hhex]
      rw [ih n _ (k + 1) (by omega)]
      · simp only [World.mk.injEq, Prod.mk.injEq, true_and]
        refine ⟨?_, ?_⟩
        · rw [List.range_succ_eq_map (j + 1)]
          simp [List.map_map, Function.comp_def, Nat.add_assoc, Nat.add_comm 1]
        · rw [List.range_succ_eq_map j]
          simp [List.map_map, Function.comp_def, Nat.add_assoc, Nat.add_comm 1]
      · intro i hi
        have := hok (i + 1) (by omega)
        simpa [Nat.add_assoc, Nat.add_comm 1] using this
      · intro i hi
        have := hpres (i + 1) (by omega)
        simpa [Nat.add_assoc, Nat.add_comm 1] using this
      · have := habs
        simpa [Nat.add_assoc, Nat.add_comm 1] using this

/-! ## The write loop when every insert succeeds -/

theorem ChunkMaxSize_eq : ChunkMaxSize = 8388608 := by decide

theorem ceil_full (len : Nat) (h : ChunkMaxSize ≤ len) :
    (len + ChunkMaxSize - 1) / ChunkMaxSize =
      (len - ChunkMaxSize + ChunkMaxSize - 1) / ChunkMaxSize + 1 := by
  rw [ChunkMaxSize_eq] at h ⊢
  omega

theorem ceil_short (len : Nat) (h0 : 0 < len) (h : len < ChunkMaxSize) :
    (len + ChunkMaxSize - 1) / ChunkMaxSize = 1 := by
  rw [ChunkMaxSize_eq] at h ⊢
  omega

theorem ceil_zero : (0 + ChunkMaxSize - 1) / ChunkMaxSize = 0 := by decide

theorem storeChunk_ok (w : World) (bucket name : String) (chunk : Bytes) (k : Nat)
    (hne : chunk ≠ []) (hf : w.faults w.ops.length = none) :
    storeChunk w bucket name chunk k = (none, [],
      { w with
        ops := w.ops ++ [StoreOp.insertChunk bucket name k chunk]
        store := { w.store with
          chunks := fun b n i =>
            if b = bucket ∧ n = name ∧ i = k then some chunk else w.store.chunks b n i } }) := by
  have hl : chunk.length ≠ 0 := by
    intro h; exact hne (List.length_eq_zero.mp h)
  unfold storeChunk execInsertChunk
  rw [if_neg hl, hf]

/-- The write loop with an empty buffer, a body stream ending in `io.EOF` and
no failing query: it ends normally having issued one chunk insert per
consecutive `ChunkMaxSize`-byte slice of the remaining body, numbered upward
from `k`. -/
theorem putLoop_noFaults (bucket name : String) (fuel : Nat) :
    ∀ (w : World) (reader : Bytes) (k : Nat), reader.length < fuel →
      (∀ i, w.faults i = none) →
      ∃ w1, putLoop fuel w bucket name reader none [] k = some (.ok (), w1) ∧
        w1.resp = w.resp ∧
        w1.ops = w.ops ++
          (List.range ((reader.length + ChunkMaxSize - 1) / ChunkMaxSize)).map
            (fun i => StoreOp.insertChunk bucket name (k + i)
              ((reader.drop (i * ChunkMaxSize)).take ChunkMaxSize)) := by
  induction fuel with
  | zero => intro w reader k h; omega
  | succ fuel ih =>
    intro w reader k h hok
    unfold putLoop
    simp only [List.nil_append]
    have hpos := ChunkMaxSize_pos
    by_cases hfull : (List.take ChunkMaxSize reader).length = ChunkMaxSize
    · have hlen : ChunkMaxSize ≤ reader.length := by
        rw [List.length_take] at hfull; omega
      have hdrop : (List.drop ChunkMaxSize reader).length < fuel := by
        rw [List.length_drop]; omega
      have hne : List.take ChunkMaxSize reader ≠ [] := by
        intro h0
        rw [h0, List.length_nil] at hfull
        omega
      rw [if_pos hfull, if_pos (Nat.le_of_eq hfull.symm)]
      rw [storeChunk_ok w bucket name _ k hne (hok _)]
      obtain ⟨w1, hrun, hresp, hops⟩ := ih
        { w with
          ops := w.ops ++ [StoreOp.insertChunk bucket name k (List.take ChunkMaxSize reader)]
          store := { w.store with
            chunks := fun b n i =>
              if b = bucket ∧ n = name ∧ i = k then some (List.take ChunkMaxSize reader)
              else w.store.chunks b n i } }
        (List.drop ChunkMaxSize reader) (k + 1) hdrop hok
      refine ⟨w1, hrun, hresp, ?_⟩
      rw [hops, ceil_full reader.length hlen, List.length_drop]
      generalize (reader.length - ChunkMaxSize + ChunkMaxSize - 1) / ChunkMaxSize = c
      rw [List.range_succ_eq_map, List.map_cons, List.map_map, List.append_assoc,
        List.singleton_append]
      congr 1
      refine congrArg₂ List.cons ?_ ?_
      · rw [Nat.zero_mul, List.drop_zero, Nat.add_zero]
      · apply List.map_congr_left
        intro i _
        have e1 : k + 1 + i = k + (i + 1) := by omega
        have e2 : i * ChunkMaxSize + ChunkMaxSize = (i + 1) * ChunkMaxSize := by
          rw [Nat.succ_mul]
        show StoreOp.insertChunk bucket name (k + 1 + i)
            (List.take ChunkMaxSize (List.drop (i * ChunkMaxSize) (List.drop ChunkMaxSize reader))) =
          StoreOp.insertChunk bucket name (k + (i + 1))
            (List.take ChunkMaxSize (List.drop ((i + 1) * ChunkMaxSize) reader))
        rw [List.drop_drop, e1, ← e2, Nat.add_comm ChunkMaxSize]
    · have hlen : reader.length < ChunkMaxSize := by
        rw [List.length_take] at hfull; omega
      rw [if_neg hfull]
      rw [List.take_of_length_le (Nat.le_of_lt hlen)]
      cases reader with
      | nil =>
        have hz : (([] : Bytes).length + ChunkMaxSize - 1) / ChunkMaxSize = 0 := by decide
        rw [hz]
        exact ⟨w, rfl, rfl, (List.append_nil _).symm⟩
      | cons b bs =>
        rw [storeChunk_ok w bucket name _ k (List.cons_ne_nil b bs) (hok _)]
        rw [ceil_short (b :: bs).length (Nat.succ_pos _) hlen]
        refine ⟨_, rfl, rfl, ?_⟩
        show w.ops ++ [StoreOp.insertChunk bucket name k (b :: bs)] =
          w.ops ++ [StoreOp.insertChunk bucket name (k + 0)
            (List.take ChunkMaxSize (List.drop (0 * ChunkMaxSize) (b :: bs)))]
        rw [Nat.zero_mul, List.drop_zero, Nat.add_zero,
          List.take_of_length_le (Nat.le_of_lt hlen)]

theorem slices_concat (n : Nat) :
    ∀ (body : Bytes), body.length ≤ n * ChunkMaxSize →
      (List.range n).flatMap (fun i => (body.drop (i * ChunkMaxSize)).take ChunkMaxSize) =
        body := by
  induction n with
  | zero =>
    intro body h
    simp at h
    simp [h]
  | succ n ih =>
    intro body h
    rw [List.range_succ_eq_map, List.flatMap_cons, List.flatMap_map]
    have hd : (List.drop ChunkMaxSize body).length ≤ n * ChunkMaxSize := by
      rw [List.length_drop, Nat.succ_mul] at *; omega
    have := ih (List.drop ChunkMaxSize body) hd
    simp only [List.drop_drop] at this
    simp only [Nat.zero_mul, List.drop_zero, Nat.succ_mul]
    conv_rhs => rw [← List.take_append_drop ChunkMaxSize body]
    congr 1
    rw [← this]
    congr 1
    funext i
    have e2 : ChunkMaxSize + i * ChunkMaxSize = i * ChunkMaxSize + ChunkMaxSize := by omega
    simp only [Function.comp_def, Nat.succ_eq_add_one, Nat.succ_mul, e2]

/-! ## Rows left by the write loop, and reading them back -/

/-- The rows the write loop leaves behind when no query fails: chunk `k + i`
holds slice `i` of the remaining body, the chunks below `k` and the objects
table are as before. -/
theorem putLoop_noFaults_store (bucket name : String) (fuel : Nat) :
    ∀ (w : World) (reader : Bytes) (k : Nat), reader.length < fuel →
      (∀ i, w.faults i = none) →
      ∃ w1, putLoop fuel w bucket name reader none [] k = some (.ok (), w1) ∧
        w1.store.objects = w.store.objects ∧
        (∀ m, m < k → w1.store.chunks bucket name m = w.store.chunks bucket name m) ∧
        (∀ i, i < (reader.length + ChunkMaxSize - 1) / ChunkMaxSize →
          w1.store.chunks bucket name (k + i) =
            some ((reader.drop (i * ChunkMaxSize)).take ChunkMaxSize)) := by
  induction fuel with
  | zero => intro w reader k h; omega
  | succ fuel ih =>
    intro w reader k h hok
    unfold putLoop
    simp only [List.nil_append]
    have hpos := ChunkMaxSize_pos
    by_cases hfull : (List.take ChunkMaxSize reader).length = ChunkMaxSize
    · have hlen : ChunkMaxSize ≤ reader.length := by
        rw [List.length_take] at hfull; omega
      have hdrop : (List.drop ChunkMaxSize reader).length < fuel := by
        rw [List.length_drop]; omega
      have hne : List.take ChunkMaxSize reader ≠ [] := by
        intro h0
        rw [h0, List.length_nil] at hfull
        omega
      rw [if_pos hfull, if_pos (Nat.le_of_eq hfull.symm)]
      rw [storeChunk_ok w bucket name _ k hne (hok _)]
      obtain ⟨w1, hrun, hobj, hframe, hrows⟩ := ih
        { w with
          ops := w.ops ++ [StoreOp.insertChunk bucket name k (List.take ChunkMaxSize reader)]
          store := { w.store with
            chunks := fun b n i =>
              if b = bucket ∧ n = name ∧ i = k then some (List.take ChunkMaxSize reader)
              else w.store.chunks b n i } }
        (List.drop ChunkMaxSize reader) (k + 1) hdrop hok
      refine ⟨w1, hrun, hobj, ?_, ?_⟩
      · intro m hm
        rw [hframe m (by omega)]
        show (if bucket = bucket ∧ name = name ∧ m = k then _ else _) = _
        rw [if_neg (fun hc => absurd hc.2.2 (by omega))]
      · rw [ceil_full reader.length hlen]
        rw [List.length_drop] at hrows
        intro i hi
        cases i with
        | zero =>
          rw [Nat.add_zero, hframe k (by omega), Nat.zero_mul, List.drop_zero]
          show (if bucket = bucket ∧ name = name ∧ k = k then _ else _) = _
          rw [if_pos ⟨rfl, rfl, rfl⟩]
        | succ i =>
          have e1 : k + (i + 1) = k + 1 + i := by omega
          have e2 : (i + 1) * ChunkMaxSize = ChunkMaxSize + i * ChunkMaxSize := by
            rw [Nat.succ_mul]; omega
          rw [e1, hrows i (by omega), List.drop_drop, e2]
    · have hlen : reader.length < ChunkMaxSize := by
        rw [List.length_take] at hfull; omega
      rw [if_neg hfull]
      rw [List.take_of_length_le (Nat.le_of_lt hlen)]
      cases reader with
      | nil =>
        have hz : (([] : Bytes).length + ChunkMaxSize - 1) / ChunkMaxSize = 0 := by decide
        rw [hz]
        exact ⟨w, rfl, rfl, fun _ _ => rfl, fun i hi => absurd hi (Nat.not_lt_zero i)⟩
      | cons b bs =>
        rw [storeChunk_ok w bucket name _ k (List.cons_ne_nil b bs) (hok _)]
        rw [ceil_short (b :: bs).length (Nat.succ_pos _) hlen]
        refine ⟨_, rfl, rfl, ?_, ?_⟩
        · intro m hm
          show (if bucket = bucket ∧ name = name ∧ m = k then _ else _) = _
          rw [if_neg (fun hc => absurd hc.2.2 (by omega))]
        · intro i hi
          have hi0 : i = 0 := by omega
          subst hi0
          rw [Nat.add_zero, Nat.zero_mul, List.drop_zero,
            List.take_of_length_le (Nat.le_of_lt hlen)]
          show (if bucket = bucket ∧ name = name ∧ k = k then _ else _) = _
          rw [if_pos ⟨rfl, rfl, rfl⟩]

/-- The read loop when the next `n` chunks are present and each holds at
least 50 bytes, and the queries succeed: all are written, in order. -/
theorem getLoop_present (bucket name : String) (cs : Nat → Bytes) (n : Nat) :
    ∀ (w : World) (k : Nat),
      (∀ i, i < n → w.faults (w.ops.length + i) = none) →
      (∀ i, i < n → w.store.chunks bucket name (k + i) = some (cs (k + i)) ∧
        50 ≤ (cs (k + i)).length) →
      getLoop n w bucket name k = (.ok (),
        { w with
          ops := w.ops ++ (List.range n).map (fun i => StoreOp.selectChunk bucket name (k + i))
          resp := w.resp ++ (List.range n).map (fun i => RespEvent.Write (cs (k + i))) }) := by
  induction n with
  | zero =>
    intro w k _ _
    unfold getLoop
    simp
  | succ n ih =>
    intro w k hok hpres
    have h0 := hok 0 (Nat.succ_pos _)
    obtain ⟨hc, hl⟩ := hpres 0 (Nat.succ_pos _)
    simp only [Nat.add_zero] at h0 hc hl
    unfold getLoop queryChunk
    rw [h0]
    simp only
    rw [hc]
    simp only
    have hhex : ¬ (hexEncodeToString (cs k)).length < 100 := by
      rw [hexEncodeToString_length]; omega
    rw [if_neg hhex]
    rw [ih _ (k + 1)]
    · simp only [World.mk.injEq, Prod.mk.injEq, true_and]
      refine ⟨?_, ?_⟩
      · rw [List.range_succ_eq_map n]
        simp [List.map_map, Function.comp_def, Nat.add_assoc, Nat.add_comm 1]
      · rw [List.range_succ_eq_map n]
        simp [List.map_map, Function.comp_def, Nat.add_assoc, Nat.add_comm 1]
    · intro i hi
      have := hok (i + 1) (by omega)
      simpa [Nat.add_assoc, Nat.add_comm 1] using this
    · intro i hi
      have := hpres (i + 1) (by omega)
      simpa [Nat.add_assoc, Nat.add_comm 1] using this

/-- The read loop when the chunks before `k + j` are present with at least
50 bytes each, and chunk `k + j` is present with fewer than 50 bytes: the
chunks before are written and the log line for chunk `k + j` panics. -/
theorem getLoop_short (bucket name : String) (cs : Nat → Bytes) (j : Nat) :
    ∀ (n : Nat) (w : World) (k : Nat), j < n →
      (∀ i, i ≤ j → w.faults (w.ops.length + i) = none) →
      (∀ i, i < j → w.store.chunks bucket name (k + i) = some (cs (k + i)) ∧
        50 ≤ (cs (k + i)).length) →
      w.store.chunks bucket name (k + j) = some (cs (k + j)) →
      (cs (k + j)).length < 50 →
      getLoop n w bucket name k = (.error (.sliceBounds 100 (2 * (cs (k + j)).length)),
        { w with
          ops := w.ops ++ (List.range (j + 1)).map (fun i => StoreOp.selectChunk bucket name (k + i))
          resp := w.resp ++ (List.range j).map (fun i => RespEvent.Write (cs (k + i))) }) := by
  induction j with
  | zero =>
    intro n w k hn hok _ hc hshort
    cases n with
    | zero => omega
    | succ n =>
      have h0 := hok 0 (Nat.le_refl 0)
      simp only [Nat.add_zero] at h0 hc hshort
      unfold getLoop queryChunk
      rw [h0]
      simp only
      rw [hc]
      simp only
      have hhex : (hexEncodeToString (cs k)).length < 100 := by
        rw [hexEncodeToString_length]; omega
      rw [if_pos hhex, hexEncodeToString_length]
      simp [List.range_succ]
  | succ j ih =>
    intro n w k hn hok hpres hc hshort
    cases n with
    | zero => omega
    | succ n =>
      have h0 := hok 0 (Nat.zero_le _)
      obtain ⟨hc0, hl⟩ := hpres 0 (Nat.succ_pos _)
      simp only [Nat.add_zero] at h0 hc0 hl
      unfold getLoop queryChunk
      rw [h0]
      simp only
      rw [hc0]
      simp only
      have hhex : ¬ (hexEncodeToString (cs k)).length < 100 := by
        rw [hexEncodeToString_length]; omega
      rw [if_neg hhex]
      have e : k + 1 + j = k + (j + 1) := by omega
      rw [ih n _ (k + 1) (by omega)]
      · rw [e]
        simp only [World.mk.injEq, Prod.mk.injEq, true_and]
        refine ⟨?_, ?_⟩
        · rw [List.range_succ_eq_map (j + 1)]
          simp [List.map_map, Function.comp_def, Nat.add_assoc, Nat.add_comm 1]
        · rw [List.range_succ_eq_map j]
          simp [List.map_map, Function.comp_def, Nat.add_assoc, Nat.add_comm 1]
      · intro i hi
        have := hok (i + 1) (by omega)
        simpa [Nat.add_assoc, Nat.add_comm 1] using this
      · intro i hi
        have := hpres (i + 1) (by omega)
        simpa [Nat.add_assoc, Nat.add_comm 1] using this
      · rw [e]; exact hc
      · rw [e]; exact hshort

theorem chunkCount_natCast (L : Nat) :
    (chunkCount (L : Int)).toNat = (L + ChunkMaxSize - 1) / ChunkMaxSize := by
  unfold chunkCount
  rw [← Int.ofNat_tdiv, ← Int.ofNat_tmod]
  have hB := ChunkMaxSize_eq
  rw [hB]
  split
  · rename_i h
    have h1 : 0 < L % 8388608 := by omega
    have h2 : ((L / 8388608 : Nat) : Int) + 1 = ((L / 8388608 + 1 : Nat) : Int) := by omega
    rw [h2, Int.toNat_ofNat]
    omega
  · rename_i h
    have h1 : L % 8388608 = 0 := by omega
    rw [Int.add_zero, Int.toNat_ofNat]
    omega

/-- A PUT of a new object with no failing query and a body ending in
`io.EOF`: `ServeHTTP` returns with nothing written to the response, the
object row carries the parsed `Content-Length`, and chunk `i` holds slice `i`
of the body. -/
theorem ServeHTTP_put_stores (st : Store) (f : Nat → Option String) (req : Request)
    (bucket name : String) (cl : Int)
    (hm : req.Method = "PUT")
    (hpath : splitPath req.Path = .ok (bucket, name))
    (hnew : st.objects bucket name = none)
    (hhdr : headerGet req.Header "Content-Length" ≠ "")
    (hcl : ParseInt (headerGet req.Header "Content-Length").data = .ok cl)
    (heof : req.BodyErr = none)
    (hok : ∀ i, f i = none) :
    ∃ w1 row, ServeHTTP (World.start st f) req = some w1 ∧ w1.resp = [] ∧
      w1.store.objects bucket name = some row ∧ row.content_length = cl ∧
      ∀ i, i < (req.Body.length + ChunkMaxSize - 1) / ChunkMaxSize →
        w1.store.chunks bucket name i =
          some ((req.Body.drop (i * ChunkMaxSize)).take ChunkMaxSize) := by
  unfold ServeHTTP
  rw [if_pos hm]
  unfold dataPut
  rw [hpath]
  simp only
  unfold queryCount
  have hf0 : (World.start st f).faults (World.start st f).ops.length = none := hok _
  have hn0 : (World.start st f).store.objects bucket name = none := hnew
  rw [hf0, hn0]
  simp only [Option.isSome_none]
  rw [if_neg (by decide), if_neg hhdr, hcl]
  simp only
  generalize ((if headerGet req.Header "Content-Type" ≠ "" then
      [("content-type", headerGet req.Header "Content-Type")] else []) ++
    (if headerGet req.Header "Content-Encoding" ≠ "" then
      [("content-encoding", headerGet req.Header "Content-Encoding")] else [])) = md
  unfold execInsertObject
  have hf1 : (World.start st f).faults
      ({ World.start st f with
        ops := (World.start st f).ops ++ [StoreOp.countObjects bucket name] } : World).ops.length =
      none := hok _
  rw [hf1]
  simp only
  rw [heof]
  obtain ⟨w1, hput, hresp, -⟩ := putLoop_noFaults bucket name (req.Body.length + 1)
    { World.start st f with
      ops := (World.start st f).ops ++ [StoreOp.countObjects bucket name] ++
        [StoreOp.insertObject bucket name cl md]
      store := { (World.start st f).store with
        objects := fun b n =>
          if b = bucket ∧ n = name then
            some { content_length := cl, created := (World.start st f).store.clock,
                   metadata := md }
          else (World.start st f).store.objects b n } }
    req.Body 0 (Nat.lt_succ_self _) hok
  obtain ⟨w2, hput2, hobj, -, hrows⟩ := putLoop_noFaults_store bucket name (req.Body.length + 1)
    { World.start st f with
      ops := (World.start st f).ops ++ [StoreOp.countObjects bucket name] ++
        [StoreOp.insertObject bucket name cl md]
      store := { (World.start st f).store with
        objects := fun b n =>
          if b = bucket ∧ n = name then
            some { content_length := cl, created := (World.start st f).store.clock,
                   metadata := md }
          else (World.start st f).store.objects b n } }
    req.Body 0 (Nat.lt_succ_self _) hok
  have hw : w2 = w1 := by
    rw [hput] at hput2
    injection hput2 with h
    injection h with _ h
    exact h.symm
  subst hw
  refine ⟨w2, ObjectRow.mk cl (World.start st f).store.clock md, ?_, hresp, ?_, rfl, ?_⟩
  · show Option.map recoverPanic (putLoop _ _ _ _ _ _ _ _) = _
    rw [hput]
    rfl
  · rw [hobj]
    show (if bucket = bucket ∧ name = name then _ else _) = _
    rw [if_pos ⟨rfl, rfl⟩]
  · intro i hi
    have := hrows i hi
    rw [Nat.zero_add] at this
    exact this

theorem statusSent_headers (hdrs rest : List RespEvent) (code : Nat)
    (h : ∀ e ∈ hdrs, ∃ k v, e = RespEvent.SetHeader k v) :
    statusSent (hdrs ++ RespEvent.WriteHeader code :: rest) = code := by
  induction hdrs with
  | nil => rfl
  | cons e es ih =>
    obtain ⟨k, v, he⟩ := h e (List.mem_cons_self _ _)
    subst he
    show statusSent (es ++ RespEvent.WriteHeader code :: rest) = code
    exact ih (fun e he => h e (List.mem_cons_of_mem _ he))

theorem bodyWritten_headers (hdrs : List RespEvent)
    (h : ∀ e ∈ hdrs, ∃ k v, e = RespEvent.SetHeader k v) : bodyWritten hdrs = [] := by
  induction hdrs with
  | nil => rfl
  | cons e es ih =>
    obtain ⟨k, v, he⟩ := h e (List.mem_cons_self _ _)
    subst he
    show bodyWritten es = []
    exact ih (fun e he => h e (List.mem_cons_of_mem _ he))

/-- The header calls `dataGet` makes before `WriteHeader(200)`. -/
theorem getHeaders_set (row : ObjectRow) :
    ∀ e ∈ [RespEvent.SetHeader "Content-Length" (toString row.content_length)] ++
        (if headerGet row.metadata "content-type" ≠ "" then
          [RespEvent.SetHeader "Content-Type" (headerGet row.metadata "content-type")]
        else []),
      ∃ k v, e = RespEvent.SetHeader k v := by
  intro e he
  split at he
  · simp at he
    rcases he with he | he
    · exact ⟨_, _, he⟩
    · exact ⟨_, _, he⟩
  · simp at he
    exact ⟨_, _, he⟩

/-- A GET of a stored object whose chunks are all present with at least 50
bytes each, every query succeeding: status 200 and the body written is the
concatenation of the chunks in index order. -/
theorem ServeHTTP_get_present (st : Store) (f : Nat → Option String) (req : Request)
    (bucket name : String) (row : ObjectRow) (cs : Nat → Bytes)
    (hm : req.Method = "GET")
    (hpath : splitPath req.Path = .ok (bucket, name))
    (hrow : st.objects bucket name = some row)
    (hok : ∀ i, f i = none)
    (hpresent : ∀ i, i < (chunkCount row.content_length).toNat →
      st.chunks bucket name i = some (cs i) ∧ 50 ≤ (cs i).length) :
    ∃ w2, ServeHTTP (World.start st f) req = some w2 ∧ statusSent w2.resp = 200 ∧
      bodyWritten w2.resp = (List.range (chunkCount row.content_length).toNat).flatMap cs := by
  have hne : req.Method ≠ "PUT" := by rw [hm]; decide
  unfold ServeHTTP
  rw [if_neg hne, if_pos hm]
  unfold dataGet
  rw [hpath]
  simp only
  unfold queryObject
  have hf0 : (World.start st f).faults (World.start st f).ops.length = none := hok _
  rw [hf0]
  simp only
  have hrow1 : (World.start st f).store.objects bucket name = some row := hrow
  rw [hrow1]
  simp only
  generalize (chunkCount row.content_length).toNat = n at hpresent ⊢
  rw [getLoop_present bucket name cs n _ 0]
  · have hh := getHeaders_set row
    refine ⟨_, rfl, ?_, ?_⟩
    · show statusSent (([] ++ _ ++ [RespEvent.WriteHeader 200]) ++ _) = 200
      rw [List.nil_append, List.append_assoc, List.singleton_append]
      exact statusSent_headers _ _ 200 hh
    · show bodyWritten (([] ++ _ ++ [RespEvent.WriteHeader 200]) ++ _) = _
      rw [List.nil_append, bodyWritten_append, bodyWritten_append, bodyWritten_headers _ hh]
      have hw := bodyWritten_writes (fun i => cs (0 + i)) (List.range n)
      rw [hw]
      have hfun : (fun i => cs (0 + i)) = cs := by
        funext i
        rw [Nat.zero_add]
      rw [hfun]
      rfl
  · intro i _
    exact hok _
  · intro i hi
    rw [Nat.zero_add]
    exact hpresent i hi

/-- A GET of a stored object whose chunks before `j` are present with at
least 50 bytes each and whose chunk `j` is present with fewer than 50 bytes:
status 200, and the body written is the chunks before `j` followed by the
error line of the slice panic; chunk `j` is not written. -/
theorem ServeHTTP_get_short (st : Store) (f : Nat → Option String) (req : Request)
    (bucket name : String) (row : ObjectRow) (cs : Nat → Bytes) (j : Nat)
    (hm : req.Method = "GET")
    (hpath : splitPath req.Path = .ok (bucket, name))
    (hrow : st.objects bucket name = some row)
    (hok : ∀ i, f i = none)
    (hj : j < (chunkCount row.content_length).toNat)
    (hpresent : ∀ i, i < j → st.chunks bucket name i = some (cs i) ∧ 50 ≤ (cs i).length)
    (hc : st.chunks bucket name j = some (cs j))
    (hshort : (cs j).length < 50) :
    ∃ w2, ServeHTTP (World.start st f) req = some w2 ∧ statusSent w2.resp = 200 ∧
      bodyWritten w2.resp = (List.range j).flatMap cs ++
        stringBytes ("err: " ++ (PanicVal.sliceBounds 100 (2 * (cs j).length)).message ++
          "\n") := by
  have hne : req.Method ≠ "PUT" := by rw [hm]; decide
  unfold ServeHTTP
  rw [if_neg hne, if_pos hm]
  unfold dataGet
  rw [hpath]
  simp only
  unfold queryObject
  have hf0 : (World.start st f).faults (World.start st f).ops.length = none := hok _
  rw [hf0]
  simp only
  have hrow1 : (World.start st f).store.objects bucket name = some row := hrow
  rw [hrow1]
  simp only
  generalize (chunkCount row.content_length).toNat = n at hj ⊢
  rw [getLoop_short bucket name cs j n _ 0 hj]
  · have hh := getHeaders_set row
    refine ⟨_, rfl, ?_, ?_⟩
    · show statusSent ((([] ++ _ ++ [RespEvent.WriteHeader 200]) ++ _) ++ _) = 200
      rw [List.nil_append, List.append_assoc, List.append_assoc, List.singleton_append]
      exact statusSent_headers _ _ 200 hh
    · show bodyWritten ((([] ++ _ ++ [RespEvent.WriteHeader 200]) ++ _) ++
        [RespEvent.WriteHeader 500, RespEvent.Write _]) = _
      rw [List.nil_append, bodyWritten_append, bodyWritten_append, bodyWritten_append,
        bodyWritten_headers _ hh]
      have hw := bodyWritten_writes (fun i => cs (0 + i)) (List.range j)
      rw [hw]
      have hfun : (fun i => cs (0 + i)) = cs := by
        funext i
        rw [Nat.zero_add]
      rw [hfun, Nat.zero_add]
      show [] ++ [] ++ _ ++ (_ ++ []) = _
      simp only [List.append_nil, List.nil_append]
  · intro i _
    exact hok _
  · intro i hi
    rw [Nat.zero_add]
    exact hpresent i hi
  · rw [Nat.zero_add]; exact hc
  · rw [Nat.zero_add]; exact hshort

theorem stringBytes_append (a b : String) :
    stringBytes (a ++ b) = stringBytes a ++ stringBytes b := by
  unfold stringBytes
  rw [String.data_append, List.flatMap_append, List.map_append]

/-- The error line of the slice panic is longer than 50 bytes. -/
theorem sliceLine_length (len : Nat) :
    50 < (stringBytes ("err: " ++ (PanicVal.sliceBounds 100 len).message ++ "\n")).length := by
  unfold PanicVal.message
  rw [stringBytes_append, stringBytes_append, stringBytes_append, stringBytes_append,
    stringBytes_append]
  have h1 : (stringBytes "err: ").length = 5 := by decide
  have h2 : (stringBytes "runtime error: slice bounds out of range [:").length = 43 := by
    decide
  have h3 : (stringBytes "] with length ").length = 14 := by decide
  simp only [List.length_append, h1, h2, h3]
  omega

/-! ## Path parsing (C9, C10) -/

/-- C9: for a bucket without `/` and any name, the path `/bucket/name` is
parsed to exactly that bucket and that name (later segments are re-joined
with `/`), and both handlers use this identity: the first query `dataPut`
issues is the count lookup for `(bucket, name)` and the first query `dataGet`
issues is the object lookup for `(bucket, name)`. -/
theorem splitPath_bucket_name (bucket name : String) (hb : '/' ∉ bucket.data)
    (w : World) (req : Request) (hp : req.Path = "/" ++ bucket ++ "/" ++ name) :
    splitPath req.Path = .ok (bucket, name) ∧
    (∃ r w1 rest, dataPut w req = some (r, w1) ∧
      w1.ops = w.ops ++ StoreOp.countObjects bucket name :: rest) ∧
    (∃ rest, (dataGet w req).2.ops = w.ops ++ StoreOp.selectObject bucket name :: rest) := by
  have hsp : splitPath req.Path = .ok (bucket, name) := by
    rw [hp]; exact splitPath_join bucket name hb
  refine ⟨hsp, ?_, ?_⟩
  · obtain ⟨r, w1, rest, hrun, -, hops, -⟩ := dataPut_run w req bucket name hsp
    exact ⟨r, w1, rest, hrun, hops⟩
  · exact dataGet_ops w req bucket name hsp

/-- Witness for C9 at the path `/b1/a/b/c`. -/
theorem splitPath_bucket_name_witness :
    '/' ∉ "b1".data ∧
    splitPath (putRequest ("/" ++ "b1" ++ "/" ++ "a/b/c") "0" []).Path = .ok ("b1", "a/b/c") :=
  ⟨by decide,
    (splitPath_bucket_name "b1" "a/b/c" (by decide) (World.start emptyStore noFaults)
      (putRequest ("/" ++ "b1" ++ "/" ++ "a/b/c") "0" []) rfl).1⟩

/-- C10 (as the code has it): the path check rejects, with the panic `bad
bucket and object name`, exactly the paths holding fewer than two `/`
characters.  An accepted path has the shape `pre/bucket/name`, where `pre`
and `bucket` hold no `/`; the bucket is the text between the first two `/`
and the name is all the text after the second one.  Neither is required to be
non-empty. -/
theorem splitPath_accepts (path : String) :
    (splitPath path = .error (.text "bad bucket and object name") ↔
      path.data.count '/' < 2) ∧
    (2 ≤ path.data.count '/' ↔ ∃ bucket name, splitPath path = .ok (bucket, name) ∧
      ∃ pre, '/' ∉ pre ∧ '/' ∉ bucket.data ∧
        path.data = pre ++ '/' :: (bucket.data ++ '/' :: name.data)) := by
  have hiff := splitPath_error_iff path
  constructor
  · constructor
    · intro h; exact hiff.mp ⟨_, h⟩
    · intro h
      unfold splitPath
      simp only [Split_length]
      rw [if_pos (by omega)]
  · constructor
    · intro h
      cases hs : splitPath path with
      | error p => exact absurd (hiff.mp ⟨p, hs⟩) (by omega)
      | ok bn =>
        obtain ⟨b, n⟩ := bn
        exact ⟨b, n, rfl, splitPath_ok_shape path b n hs⟩
    · intro h
      obtain ⟨b, n, hs, -⟩ := h
      by_contra hc
      obtain ⟨p, hp⟩ := hiff.mpr (by omega)
      rw [hs] at hp
      cases hp

/-- Counterexample to C10 as stated: the path `//` passes the check with an
empty bucket and an empty object name, and `/b1/` with an empty name. -/
theorem splitPath_accepts_empty :
    splitPath "//" = .ok ("", "") ∧ splitPath "/b1/" = .ok ("b1", "") := by
  decide

/-! ## PUT to an existing identity (C3) -/

/-- C3: when the count lookup for the parsed `(bucket, name)` reports one
row, `dataPut` panics with `object exist` whatever the headers and body are;
the only query it has issued is that lookup, so no insert reaches either
table, the store is unchanged and nothing was written to the response. -/
theorem dataPut_conflict (w : World) (req : Request) (bucket name : String)
    (hpath : splitPath req.Path = .ok (bucket, name))
    (hexists : (queryCount w bucket name).1 = .ok 1) :
    ∃ w1, dataPut w req = some (.error (.text "object exist"), w1) ∧
      w1.ops = w.ops ++ [StoreOp.countObjects bucket name] ∧
      w1.store = w.store ∧ w1.resp = w.resp :=
  dataPut_exists_run w req bucket name hpath hexists

/-- Witness for C3: a PUT to `/b1/obj1` when that object is already stored. -/
theorem dataPut_conflict_witness :
    splitPath (putRequest "/b1/obj1" "3" [1, 2, 3]).Path = .ok ("b1", "obj1") ∧
    (queryCount (World.start (storeWith 1 [[7]]) noFaults) "b1" "obj1").1 = .ok 1 ∧
    ∃ w1, dataPut (World.start (storeWith 1 [[7]]) noFaults)
        (putRequest "/b1/obj1" "3" [1, 2, 3]) = some (.error (.text "object exist"), w1) ∧
      w1.ops = [] ++ [StoreOp.countObjects "b1" "obj1"] ∧
      w1.store = storeWith 1 [[7]] ∧ w1.resp = [] :=
  ⟨by decide, by decide,
    dataPut_conflict (World.start (storeWith 1 [[7]]) noFaults)
      (putRequest "/b1/obj1" "3" [1, 2, 3]) "b1" "obj1" (by decide) (by decide)⟩

/-! ## GET of an absent object (C6) -/

/-- C6 (as the code has it): when the object lookup of a GET reports
`ErrNotFound` for the parsed `(bucket, name)`, the status sent is 404 and the
body written is exactly the text line `Object Not Found`; no chunk is looked
up and the store is unchanged. -/
theorem ServeHTTP_get_not_found (st : Store) (faults : Nat → Option String) (req : Request)
    (bucket name : String) (hm : req.Method = "GET")
    (hpath : splitPath req.Path = .ok (bucket, name))
    (hnf : (queryObject (World.start st faults) bucket name).1 = .error .ErrNotFound) :
    ∃ w1, ServeHTTP (World.start st faults) req = some w1 ∧
      w1.resp = [RespEvent.WriteHeader 404,
        RespEvent.Write (stringBytes "Object Not Found\n")] ∧
      statusSent w1.resp = 404 ∧
      bodyWritten w1.resp = stringBytes "Object Not Found\n" ∧
      w1.ops = [StoreOp.selectObject bucket name] ∧ w1.store = st := by
  have hne : req.Method ≠ "PUT" := by rw [hm]; decide
  unfold ServeHTTP
  rw [if_neg hne, if_pos hm]
  unfold dataGet
  rw [hpath]
  simp only
  have h2 := queryObject_snd (World.start st faults) bucket name
  rcases hq : queryObject (World.start st faults) bucket name with ⟨res, w1⟩
  rw [hq] at h2 hnf
  simp only at h2 hnf
  subst h2 hnf
  refine ⟨_, rfl, ?_, ?_, ?_, ?_, ?_⟩ <;> simp [recoverPanic, World.start, statusSent, bodyWritten]

/-- Witness for C6: GET `/b1/obj1` on the empty store. -/
theorem ServeHTTP_get_not_found_witness :
    (getRequest "/b1/obj1").Method = "GET" ∧
    splitPath (getRequest "/b1/obj1").Path = .ok ("b1", "obj1") ∧
    (queryObject (World.start emptyStore noFaults) "b1" "obj1").1 = .error .ErrNotFound ∧
    ∃ w1, ServeHTTP (World.start emptyStore noFaults) (getRequest "/b1/obj1") = some w1 ∧
      w1.resp = [RespEvent.WriteHeader 404,
        RespEvent.Write (stringBytes "Object Not Found\n")] ∧
      statusSent w1.resp = 404 ∧
      bodyWritten w1.resp = stringBytes "Object Not Found\n" ∧
      w1.ops = [StoreOp.selectObject "b1" "obj1"] ∧ w1.store = emptyStore :=
  ⟨by decide, by decide, by decide,
    ServeHTTP_get_not_found emptyStore noFaults (getRequest "/b1/obj1") "b1" "obj1"
      (by decide) (by decide) (by decide)⟩

/-- Counterexample to C6 as stated: GET `/b1/obj1` on the empty store sends
status 404 and writes the 17 bytes of `Object Not Found` plus newline, so the
body written is not empty. -/
theorem ServeHTTP_get_not_found_writes_body :
    (queryObject (World.start emptyStore noFaults) "b1" "obj1").1 = .error .ErrNotFound ∧
    (ServeHTTP (World.start emptyStore noFaults) (getRequest "/b1/obj1")).map
      (fun w => (statusSent w.resp, bodyWritten w.resp)) =
      some (404, [79, 98, 106, 101, 99, 116, 32, 78, 111, 116, 32, 70, 111, 117, 110, 100, 10]) ∧
    (ServeHTTP (World.start emptyStore noFaults) (getRequest "/b1/obj1")).map
      (fun w => bodyWritten w.resp) ≠ some [] := by
  decide

/-! ## Status of a rejected PUT (C7) -/

/-- The three rejections of a PUT all end in the deferred function with
status 500 and the store unchanged. -/
theorem ServeHTTP_put_rejected_run (st : Store) (faults : Nat → Option String) (req : Request)
    (hm : req.Method = "PUT")
    (h : (∃ p, splitPath req.Path = .error p) ∨
      (∃ b n, splitPath req.Path = .ok (b, n) ∧
        (queryCount (World.start st faults) b n).1 = .ok 1) ∨
      (∃ b n, splitPath req.Path = .ok (b, n) ∧
        (queryCount (World.start st faults) b n).1 = .ok 0 ∧
        (headerGet req.Header "Content-Length" = "" ∨
          ∃ e, ParseInt (headerGet req.Header "Content-Length").data = .error e))) :
    ∃ w1, ServeHTTP (World.start st faults) req = some w1 ∧
      statusSent w1.resp = 500 ∧ w1.store = st := by
  unfold ServeHTTP
  rw [if_pos hm]
  rcases h with ⟨p, hp⟩ | ⟨b, n, hp, hq⟩ | ⟨b, n, hp, hq, hh⟩
  · unfold dataPut
    rw [hp]
    exact ⟨_, rfl, rfl, rfl⟩
  · obtain ⟨w1, hrun, -, hst, hresp⟩ :=
      dataPut_exists_run (World.start st faults) req b n hp hq
    rw [hrun]
    refine ⟨_, rfl, ?_, ?_⟩
    · simp [recoverPanic, hresp, World.start, statusSent]
    · simp [recoverPanic, hst, World.start]
  · unfold dataPut
    rw [hp]
    simp only
    have h2 := queryCount_snd (World.start st faults) b n
    rcases hqc : queryCount (World.start st faults) b n with ⟨res, w1⟩
    rw [hqc] at h2 hq
    simp only at h2 hq
    subst h2 hq
    simp only
    rw [if_neg (by decide)]
    rcases hh with hh | ⟨e, he⟩
    · rw [if_pos hh]
      exact ⟨_, rfl, rfl, rfl⟩
    · by_cases hh : headerGet req.Header "Content-Length" = ""
      · rw [if_pos hh]
        exact ⟨_, rfl, rfl, rfl⟩
      · rw [if_neg hh, he]
        exact ⟨_, rfl, rfl, rfl⟩

/-- Every PUT is answered with status 200 or status 500: `dataPut` makes no
call on the response writer, so the only status other than the implicit 200
is the 500 of the deferred function. -/
theorem ServeHTTP_put_status (st : Store) (f : Nat → Option String) (req : Request)
    (hm : req.Method = "PUT") :
    ∃ w1, ServeHTTP (World.start st f) req = some w1 ∧
      (statusSent w1.resp = 200 ∨ statusSent w1.resp = 500) := by
  unfold ServeHTTP
  rw [if_pos hm]
  cases hsp : splitPath req.Path with
  | error p =>
    unfold dataPut
    rw [hsp]
    exact ⟨_, rfl, Or.inr rfl⟩
  | ok bn =>
    obtain ⟨b, n⟩ := bn
    obtain ⟨r, w1, rest, hrun, hresp, -, -⟩ := dataPut_run (World.start st f) req b n hsp
    rw [hrun]
    have hr : w1.resp = [] := hresp
    cases r with
    | error e =>
      refine ⟨_, rfl, Or.inr ?_⟩
      show statusSent (w1.resp ++ _) = 500
      rw [hr]
      rfl
    | ok u =>
      refine ⟨_, rfl, Or.inl ?_⟩
      show statusSent w1.resp = 200
      rw [hr]
      rfl

/-- C7 (as the code has it): every PUT handled by `ServeHTTP` is answered
with status 200 or 500, never a status of the 400 class.  When the path is
malformed, or the count lookup reports that the identity exists, or the
identity is new and the `Content-Length` header is missing or does not parse,
the handler panics, the deferred function answers with status 500 (the
status a store failure gets too) and the store is unchanged. -/
theorem ServeHTTP_put_rejected (st : Store) (f : Nat → Option String) (req : Request)
    (hm : req.Method = "PUT") :
    ∃ w1, ServeHTTP (World.start st f) req = some w1 ∧
      (statusSent w1.resp = 200 ∨ statusSent w1.resp = 500) ∧
      (((∃ p, splitPath req.Path = .error p) ∨
        (∃ b n, splitPath req.Path = .ok (b, n) ∧
          (queryCount (World.start st f) b n).1 = .ok 1) ∨
        (∃ b n, splitPath req.Path = .ok (b, n) ∧
          (queryCount (World.start st f) b n).1 = .ok 0 ∧
          (headerGet req.Header "Content-Length" = "" ∨
            ∃ e, ParseInt (headerGet req.Header "Content-Length").data = .error e))) →
        statusSent w1.resp = 500 ∧ w1.store = st) := by
  obtain ⟨w1, hrun, hstatus⟩ := ServeHTTP_put_status st f req hm
  refine ⟨w1, hrun, hstatus, ?_⟩
  intro h
  obtain ⟨w2, hrun2, h500, hst⟩ := ServeHTTP_put_rejected_run st f req hm h
  have hw : w2 = w1 := Option.some.inj (hrun2.symm.trans hrun)
  subst hw
  exact ⟨h500, hst⟩

/-- Witness for C7: a PUT to an identity that is already stored. -/
theorem ServeHTTP_put_rejected_witness :
    (putRequest "/b1/obj1" "1" [65]).Method = "PUT" ∧
    (splitPath (putRequest "/b1/obj1" "1" [65]).Path = .ok ("b1", "obj1") ∧
      (queryCount (World.start (storeWith 1 [[7]]) noFaults) "b1" "obj1").1 = .ok 1) ∧
    ∃ w1, ServeHTTP (World.start (storeWith 1 [[7]]) noFaults)
        (putRequest "/b1/obj1" "1" [65]) = some w1 ∧
      statusSent w1.resp = 500 ∧ w1.store = storeWith 1 [[7]] :=
  ⟨by decide, by decide,
    match ServeHTTP_put_rejected (storeWith 1 [[7]]) noFaults (putRequest "/b1/obj1" "1" [65])
      (by decide) with
    | ⟨w1, hrun, _, himp⟩ =>
      ⟨w1, hrun, himp (Or.inr (Or.inl ⟨"b1", "obj1", by decide, by decide⟩))⟩⟩

/-- Counterexample to C7 as stated: a PUT to the stored identity `b1/obj1`,
a PUT to the one-segment path `/b1`, a PUT without `Content-Length` and a PUT
with `Content-Length: abc` are all answered with status 500, with no store
failure involved; none gets a status of the 400 class. -/
theorem ServeHTTP_put_errors_are_500 :
    (ServeHTTP (World.start (storeWith 1 [[7]]) noFaults) (putRequest "/b1/obj1" "1" [65])).map
      (fun w => statusSent w.resp) = some 500 ∧
    (ServeHTTP (World.start emptyStore noFaults) (putRequest "/b1" "1" [65])).map
      (fun w => statusSent w.resp) = some 500 ∧
    (ServeHTTP (World.start emptyStore noFaults)
      { Method := "PUT", Path := "/b1/obj1", Header := [], Body := [65], BodyErr := none }).map
      (fun w => statusSent w.resp) = some 500 ∧
    (ServeHTTP (World.start emptyStore noFaults) (putRequest "/b1/obj1" "abc" [65])).map
      (fun w => statusSent w.resp) = some 500 ∧
    ¬ (400 ≤ 500 ∧ 500 < 500) := by
  decide

/-! ## Validation of `Content-Length` (C8) -/

/-- C8 (as the code has it): for a PUT to an identity the count lookup
reports as new, `dataPut` panics before any insert when the `Content-Length`
header is missing or is not accepted by `strconv.ParseInt`; and in every run
each object row inserted carries the value `ParseInt` returns for the header,
a signed 64-bit integer. -/
theorem dataPut_content_length (w : World) (req : Request) (bucket name : String)
    (hpath : splitPath req.Path = .ok (bucket, name))
    (hnew : (queryCount w bucket name).1 = .ok 0) :
    ((headerGet req.Header "Content-Length" = "" ∨
        ∃ e, ParseInt (headerGet req.Header "Content-Length").data = .error e) →
      ∃ p w1, dataPut w req = some (.error p, w1) ∧
        w1.ops = w.ops ++ [StoreOp.countObjects bucket name] ∧ w1.store = w.store) ∧
    (∃ r w1 rest, dataPut w req = some (r, w1) ∧ w1.ops = w.ops ++ rest ∧
      ∀ b n cl md, StoreOp.insertObject b n cl md ∈ rest →
        ParseInt (headerGet req.Header "Content-Length").data = .ok cl ∧
        -(2 ^ 63 : Int) ≤ cl ∧ cl < 2 ^ 63) := by
  constructor
  · intro hh
    unfold dataPut
    rw [hpath]
    simp only
    have h2 := queryCount_snd w bucket name
    rcases hqc : queryCount w bucket name with ⟨res, w1⟩
    rw [hqc] at h2 hnew
    simp only at h2 hnew
    subst h2 hnew
    simp only
    rw [if_neg (by decide)]
    rcases hh with hh | ⟨e, he⟩
    · rw [if_pos hh]
      exact ⟨_, _, rfl, rfl, rfl⟩
    · by_cases hh : headerGet req.Header "Content-Length" = ""
      · rw [if_pos hh]
        exact ⟨_, _, rfl, rfl, rfl⟩
      · rw [if_neg hh, he]
        exact ⟨_, _, rfl, rfl, rfl⟩
  · obtain ⟨r, w1, rest, hrun, -, hops, hall⟩ := dataPut_run w req bucket name hpath
    refine ⟨r, w1, StoreOp.countObjects bucket name :: rest, hrun, hops, ?_⟩
    intro b n cl md hmem
    rcases List.mem_cons.mp hmem with h | h
    · cases h
    · rcases hall _ h with ⟨i, d, hi⟩ | ⟨cl1, md1, he, hp⟩
      · cases hi
      · injection he with _ _ hcl _
        subst hcl
        exact ⟨hp, ParseInt_range _ _ hp⟩

/-- Witness for C8: a PUT of a new object without `Content-Length`. -/
theorem dataPut_content_length_witness :
    splitPath (Request.mk "PUT" "/b1/obj1" [] [65] none).Path = .ok ("b1", "obj1") ∧
    (queryCount (World.start emptyStore noFaults) "b1" "obj1").1 = .ok 0 ∧
    ∃ r w1 rest, dataPut (World.start emptyStore noFaults)
        (Request.mk "PUT" "/b1/obj1" [] [65] none) = some (r, w1) ∧
      w1.ops = (World.start emptyStore noFaults).ops ++ rest ∧
      ∀ b n cl md, StoreOp.insertObject b n cl md ∈ rest →
        ParseInt (headerGet (Request.mk "PUT" "/b1/obj1" [] [65] none).Header
          "Content-Length").data = .ok cl ∧
        -(2 ^ 63 : Int) ≤ cl ∧ cl < 2 ^ 63 :=
  ⟨by decide, by decide,
    (dataPut_content_length (World.start emptyStore noFaults)
      (Request.mk "PUT" "/b1/obj1" [] [65] none) "b1" "obj1" (by decide) (by decide)).2⟩

/-- Counterexample to C8 as stated: a PUT of a new object with the header
`Content-Length: -5` is not rejected; `dataPut` returns normally after
inserting an object row whose `content_length` is -5. -/
theorem dataPut_negative_length :
    (dataPut (World.start emptyStore noFaults) (putRequest "/b1/obj1" "-5" [])).map
      (fun r => (r.1, r.2.ops, (r.2.store.objects "b1" "obj1").map ObjectRow.content_length)) =
    some (.ok (), [StoreOp.countObjects "b1" "obj1", StoreOp.insertObject "b1" "obj1" (-5) []],
      some (-5)) := by
  decide

/-! ## GET with a missing chunk (C5) -/

/-- C5 (as the code has it): for a GET of a stored object whose length calls
for more than `j` chunks, where the queries succeed, chunks `0 .. j-1` are
present with at least 50 bytes each and the lookup of chunk `j` finds no row:
after the headers and `WriteHeader(200)` the handler writes chunks `0 .. j-1`
in order, panics with `not found`, and the deferred function calls
`WriteHeader(500)` and writes the line `err: not found`.  No `WriteHeader(404)`
is issued, and the body written is the bytes of chunks `0 .. j-1` followed by
that error line. -/
theorem ServeHTTP_get_missing_chunk (st : Store) (faults : Nat → Option String)
    (req : Request) (bucket name : String) (row : ObjectRow) (cs : Nat → Bytes) (j : Nat)
    (hm : req.Method = "GET")
    (hpath : splitPath req.Path = .ok (bucket, name))
    (hrow : st.objects bucket name = some row)
    (hj : j < (chunkCount row.content_length).toNat)
    (hok : ∀ i, i ≤ j + 1 → faults i = none)
    (hpresent : ∀ i, i < j → st.chunks bucket name i = some (cs i) ∧ 50 ≤ (cs i).length)
    (habsent : st.chunks bucket name j = none) :
    ∃ w1 hdrs, ServeHTTP (World.start st faults) req = some w1 ∧
      (∀ e ∈ hdrs, ∃ k v, e = RespEvent.SetHeader k v) ∧
      w1.resp = hdrs ++ [RespEvent.WriteHeader 200] ++
        (List.range j).map (fun i => RespEvent.Write (cs i)) ++
        [RespEvent.WriteHeader 500, RespEvent.Write (stringBytes "err: not found\n")] ∧
      RespEvent.WriteHeader 404 ∉ w1.resp ∧
      bodyWritten w1.resp = (List.range j).flatMap cs ++ stringBytes "err: not found\n" ∧
      w1.store = st := by
  have hne : req.Method ≠ "PUT" := by rw [hm]; decide
  have hmsg : stringBytes ("err: " ++ (PanicVal.store StoreErr.ErrNotFound).message ++ "\n") =
      stringBytes "err: not found\n" := by decide
  unfold ServeHTTP
  rw [if_neg hne, if_pos hm]
  unfold dataGet
  rw [hpath]
  simp only
  unfold queryObject
  have hf0 : (World.start st faults).faults (World.start st faults).ops.length = none :=
    hok 0 (Nat.zero_le _)
  rw [hf0]
  simp only
  have hrow1 : (World.start st faults).store.objects bucket name = some row := hrow
  rw [hrow1]
  simp only
  rw [getLoop_missing bucket name cs j _ _ 0 hj]
  · refine ⟨_, [RespEvent.SetHeader "Content-Length" (toString row.content_length)] ++
        (if headerGet row.metadata "content-type" ≠ "" then
          [RespEvent.SetHeader "Content-Type" (headerGet row.metadata "content-type")]
        else []), rfl, ?_, ?_, ?_, ?_, ?_⟩
    · intro e he
      split at he
      · simp at he
        rcases he with he | he
        · exact ⟨_, _, he⟩
        · exact ⟨_, _, he⟩
      · simp at he
        exact ⟨_, _, he⟩
    · simp only [recoverPanic, World.start, hmsg, Nat.zero_add, List.nil_append,
        List.append_assoc]
    · simp only [recoverPanic, World.start, hmsg]
      split <;> simp
    · simp only [recoverPanic, World.start, hmsg, Nat.zero_add, List.nil_append]
      rw [bodyWritten_append, bodyWritten_append, bodyWritten_append, bodyWritten_writes]
      split <;> simp [bodyWritten]
    · rfl
  · intro i hi
    have := hok (i + 1) (by omega)
    simpa [World.start, Nat.add_comm] using this
  · intro i hi
    simpa [World.start] using hpresent i hi
  · simpa [World.start] using habsent

/-- Witness for C5: the object `b1/obj1` claims 8388609 bytes (two chunks),
chunk 0 is stored with 50 bytes and chunk 1 is absent. -/
theorem ServeHTTP_get_missing_chunk_witness :
    (getRequest "/b1/obj1").Method = "GET" ∧
    splitPath (getRequest "/b1/obj1").Path = .ok ("b1", "obj1") ∧
    1 < (chunkCount 8388609).toNat ∧
    (storeWith 8388609 [List.replicate 50 65]).chunks "b1" "obj1" 1 = none ∧
    ∃ w1 hdrs, ServeHTTP (World.start (storeWith 8388609 [List.replicate 50 65]) noFaults)
        (getRequest "/b1/obj1") = some w1 ∧
      (∀ e ∈ hdrs, ∃ k v, e = RespEvent.SetHeader k v) ∧
      w1.resp = hdrs ++ [RespEvent.WriteHeader 200] ++
        (List.range 1).map (fun i => RespEvent.Write ((fun _ => List.replicate 50 65) i)) ++
        [RespEvent.WriteHeader 500, RespEvent.Write (stringBytes "err: not found\n")] ∧
      RespEvent.WriteHeader 404 ∉ w1.resp ∧
      bodyWritten w1.resp =
        (List.range 1).flatMap (fun _ => List.replicate 50 65) ++
          stringBytes "err: not found\n" ∧
      w1.store = storeWith 8388609 [List.replicate 50 65] :=
  ⟨by decide, by decide, by decide, by decide,
    ServeHTTP_get_missing_chunk (storeWith 8388609 [List.replicate 50 65]) noFaults
      (getRequest "/b1/obj1") "b1" "obj1"
      { content_length := 8388609, created := 0, metadata := [] }
      (fun _ => List.replicate 50 65) 1 (by decide) (by decide) (by decide) (by decide)
      (fun _ _ => rfl)
      (fun i hi => by
        have h0 : i = 0 := by omega
        subst h0
        decide)
      (by decide)⟩

/-- Counterexample to C5 as stated: the object `b1/obj1` is stored with
length 100 and no chunk row (so k = 1, j = 0).  The GET sends status 200,
not a 5xx status, because `WriteHeader(200)` precedes the loop; and the body
written is the 15 bytes of the line `err: not found`, not the empty
concatenation of the chunks before chunk 0. -/
theorem ServeHTTP_get_missing_chunk_status_body :
    (chunkCount 100).toNat = 1 ∧
    (storeWith 100 []).chunks "b1" "obj1" 0 = none ∧
    (ServeHTTP (World.start (storeWith 100 []) noFaults) (getRequest "/b1/obj1")).map
      (fun w => w.resp) =
      some [RespEvent.SetHeader "Content-Length" "100", RespEvent.WriteHeader 200,
        RespEvent.WriteHeader 500,
        RespEvent.Write [101, 114, 114, 58, 32, 110, 111, 116, 32, 102, 111, 117, 110, 100, 10]] ∧
    (ServeHTTP (World.start (storeWith 100 []) noFaults) (getRequest "/b1/obj1")).map
      (fun w => statusSent w.resp) = some 200 ∧
    (ServeHTTP (World.start (storeWith 100 []) noFaults) (getRequest "/b1/obj1")).map
      (fun w => bodyWritten w.resp) ≠ some [] := by
  decide

/-! ## Chunk rows written by a PUT (C2) -/

/-- C2: for a PUT of a new object with a parsable `Content-Length`, a body
stream that ends in `io.EOF` and no failing query, `dataPut` returns normally
and the queries it issued are the count lookup, the metadata insert, and then
one chunk insert per consecutive `ChunkMaxSize`-byte slice of the body: there
are `ceil(L / ChunkMaxSize)` of them (none when `L = 0`), with indices
`0, 1, 2, ...` in this order, insert `i` carrying the body bytes from
`i * ChunkMaxSize` up to `min((i+1) * ChunkMaxSize, L)`.  Their concatenation
in index order is the body, none is empty, and when `L` is a positive
multiple of `ChunkMaxSize` the last one has length `ChunkMaxSize`. -/
theorem dataPut_chunk_rows (w : World) (req : Request) (bucket name : String) (cl : Int)
    (hpath : splitPath req.Path = .ok (bucket, name))
    (hnew : w.store.objects bucket name = none)
    (hhdr : headerGet req.Header "Content-Length" ≠ "")
    (hcl : ParseInt (headerGet req.Header "Content-Length").data = .ok cl)
    (heof : req.BodyErr = none)
    (hok : ∀ i, w.faults i = none) :
    ∃ w1 md, dataPut w req = some (.ok (), w1) ∧
      w1.ops = w.ops ++
        [StoreOp.countObjects bucket name, StoreOp.insertObject bucket name cl md] ++
        (List.range ((req.Body.length + ChunkMaxSize - 1) / ChunkMaxSize)).map
          (fun i => StoreOp.insertChunk bucket name i
            ((req.Body.drop (i * ChunkMaxSize)).take ChunkMaxSize)) ∧
      (List.range ((req.Body.length + ChunkMaxSize - 1) / ChunkMaxSize)).flatMap
        (fun i => (req.Body.drop (i * ChunkMaxSize)).take ChunkMaxSize) = req.Body ∧
      (∀ i, i < (req.Body.length + ChunkMaxSize - 1) / ChunkMaxSize →
        (req.Body.drop (i * ChunkMaxSize)).take ChunkMaxSize ≠ [] ∧
        ((req.Body.drop (i * ChunkMaxSize)).take ChunkMaxSize).length =
          min ChunkMaxSize (req.Body.length - i * ChunkMaxSize)) ∧
      (req.Body.length = 0 → (req.Body.length + ChunkMaxSize - 1) / ChunkMaxSize = 0) ∧
      (0 < req.Body.length → req.Body.length % ChunkMaxSize = 0 →
        ((req.Body.drop (((req.Body.length + ChunkMaxSize - 1) / ChunkMaxSize - 1) *
          ChunkMaxSize)).take ChunkMaxSize).length = ChunkMaxSize) := by
  have hrun : ∃ w1 md, dataPut w req = some (.ok (), w1) ∧
      w1.ops = w.ops ++
        [StoreOp.countObjects bucket name, StoreOp.insertObject bucket name cl md] ++
        (List.range ((req.Body.length + ChunkMaxSize - 1) / ChunkMaxSize)).map
          (fun i => StoreOp.insertChunk bucket name i
            ((req.Body.drop (i * ChunkMaxSize)).take ChunkMaxSize)) := by
    unfold dataPut
    rw [hpath]
    simp only
    unfold queryCount
    rw [hok, hnew]
    simp only [Option.isSome_none]
    rw [if_neg (by decide), if_neg hhdr, hcl]
    simp only
    generalize ((if headerGet req.Header "Content-Type" ≠ "" then
        [("content-type", headerGet req.Header "Content-Type")] else []) ++
      (if headerGet req.Header "Content-Encoding" ≠ "" then
        [("content-encoding", headerGet req.Header "Content-Encoding")] else [])) = md
    unfold execInsertObject
    rw [hok]
    simp only
    rw [heof]
    obtain ⟨w1, hput, -, hops⟩ := putLoop_noFaults bucket name (req.Body.length + 1)
      { w with
        ops := w.ops ++ [StoreOp.countObjects bucket name] ++
          [StoreOp.insertObject bucket name cl md]
        store := { w.store with
          objects := fun b n =>
            if b = bucket ∧ n = name then
              some { content_length := cl, created := w.store.clock, metadata := md }
            else w.store.objects b n } }
      req.Body 0 (Nat.lt_succ_self _) hok
    refine ⟨w1, md, hput, ?_⟩
    rw [hops]
    generalize (req.Body.length + ChunkMaxSize - 1) / ChunkMaxSize = c
    have hmap : (List.range c).map (fun i => StoreOp.insertChunk bucket name (0 + i)
          ((req.Body.drop (i * ChunkMaxSize)).take ChunkMaxSize)) =
        (List.range c).map (fun i => StoreOp.insertChunk bucket name i
          ((req.Body.drop (i * ChunkMaxSize)).take ChunkMaxSize)) := by
      apply List.map_congr_left
      intro i _
      rw [Nat.zero_add]
    rw [hmap]
    show (w.ops ++ [StoreOp.countObjects bucket name] ++
        [StoreOp.insertObject bucket name cl md]) ++ _ = _
    rw [List.append_assoc w.ops]
    rfl
  obtain ⟨w1, md, h1, h2⟩ := hrun
  refine ⟨w1, md, h1, h2, ?_, ?_, ?_, ?_⟩
  · apply slices_concat
    have hB := ChunkMaxSize_eq
    generalize req.Body.length = L
    rw [hB]
    omega
  · intro i hi
    have hlt : i * ChunkMaxSize < req.Body.length := by
      have hB := ChunkMaxSize_eq
      generalize req.Body.length = L at hi ⊢
      rw [hB] at hi ⊢
      omega
    have hlen : ((req.Body.drop (i * ChunkMaxSize)).take ChunkMaxSize).length =
        min ChunkMaxSize (req.Body.length - i * ChunkMaxSize) := by
      rw [List.length_take, List.length_drop]
    refine ⟨?_, hlen⟩
    intro hnil
    rw [hnil, List.length_nil] at hlen
    have hpos := ChunkMaxSize_pos
    omega
  · intro h0
    rw [h0]
    decide
  · intro hpos hmod
    rw [List.length_take, List.length_drop]
    have hB := ChunkMaxSize_eq
    generalize req.Body.length = L at hpos hmod ⊢
    rw [hB] at hmod ⊢
    omega

/-- Witness for C2: a PUT of the three bytes `1, 2, 3` to `/b1/obj1` on the
empty store issues the count lookup, the metadata insert and one chunk insert
with index 0 holding the three bytes. -/
theorem dataPut_chunk_rows_witness :
    splitPath (putRequest "/b1/obj1" "3" [1, 2, 3]).Path = .ok ("b1", "obj1") ∧
    (World.start emptyStore noFaults).store.objects "b1" "obj1" = none ∧
    headerGet (putRequest "/b1/obj1" "3" [1, 2, 3]).Header "Content-Length" ≠ "" ∧
    ParseInt (headerGet (putRequest "/b1/obj1" "3" [1, 2, 3]).Header "Content-Length").data =
      .ok 3 ∧
    (putRequest "/b1/obj1" "3" [1, 2, 3]).BodyErr = none ∧
    (∃ w1 md, dataPut (World.start emptyStore noFaults) (putRequest "/b1/obj1" "3" [1, 2, 3]) =
        some (.ok (), w1) ∧
      w1.ops = (World.start emptyStore noFaults).ops ++
        [StoreOp.countObjects "b1" "obj1", StoreOp.insertObject "b1" "obj1" 3 md] ++
        (List.range (((putRequest "/b1/obj1" "3" [1, 2, 3]).Body.length + ChunkMaxSize - 1) /
            ChunkMaxSize)).map
          (fun i => StoreOp.insertChunk "b1" "obj1" i
            (((putRequest "/b1/obj1" "3" [1, 2, 3]).Body.drop (i * ChunkMaxSize)).take
              ChunkMaxSize))) ∧
    (dataPut (World.start emptyStore noFaults) (putRequest "/b1/obj1" "3" [1, 2, 3])).map
        (fun r => r.2.ops) =
      some [StoreOp.countObjects "b1" "obj1", StoreOp.insertObject "b1" "obj1" 3 [],
        StoreOp.insertChunk "b1" "obj1" 0 [1, 2, 3]] :=
  ⟨by decide, by decide, by decide, by decide, by decide,
    (match dataPut_chunk_rows (World.start emptyStore noFaults)
        (putRequest "/b1/obj1" "3" [1, 2, 3]) "b1" "obj1" 3 (by decide) (by decide) (by decide)
        (by decide) (by decide) (fun _ => rfl) with
      | ⟨w1, md, h1, h2, _⟩ => ⟨w1, md, h1, h2⟩),
    by decide⟩

/-! ## PUT followed by GET -/

/-- Where the round trip holds on the code: a PUT of a new object whose
`Content-Length` is the body length, followed by a GET of the same path,
every query succeeding, writes back exactly the body that was PUT, provided
no chunk is shorter than 50 bytes (the body length is a multiple of
`ChunkMaxSize`, or the last chunk has at least 50 bytes). -/
theorem ServeHTTP_put_get_long_chunks (st : Store) (f1 f2 : Nat → Option String)
    (preq greq : Request) (bucket name : String)
    (hm : preq.Method = "PUT") (hgm : greq.Method = "GET") (hgp : greq.Path = preq.Path)
    (hpath : splitPath preq.Path = .ok (bucket, name))
    (hnew : st.objects bucket name = none)
    (hhdr : headerGet preq.Header "Content-Length" ≠ "")
    (hcl : ParseInt (headerGet preq.Header "Content-Length").data =
      .ok (preq.Body.length : Int))
    (heof : preq.BodyErr = none)
    (hok1 : ∀ i, f1 i = none) (hok2 : ∀ i, f2 i = none)
    (hlong : preq.Body.length % ChunkMaxSize = 0 ∨ 50 ≤ preq.Body.length % ChunkMaxSize) :
    ∃ w1 w2, ServeHTTP (World.start st f1) preq = some w1 ∧ w1.resp = [] ∧
      ServeHTTP (World.start w1.store f2) greq = some w2 ∧
      statusSent w2.resp = 200 ∧ bodyWritten w2.resp = preq.Body := by
  obtain ⟨w1, row, h1, hresp, hobj, hrcl, hrows⟩ :=
    ServeHTTP_put_stores st f1 preq bucket name _ hm hpath hnew hhdr hcl heof hok1
  have hcount : (chunkCount row.content_length).toNat =
      (preq.Body.length + ChunkMaxSize - 1) / ChunkMaxSize := by
    rw [hrcl]; exact chunkCount_natCast _
  have hgpath : splitPath greq.Path = .ok (bucket, name) := by rw [hgp]; exact hpath
  obtain ⟨w2, h2, hs, hb⟩ := ServeHTTP_get_present w1.store f2 greq bucket name row
    (fun i => (preq.Body.drop (i * ChunkMaxSize)).take ChunkMaxSize) hgm hgpath hobj hok2
    (by
      intro i hi
      rw [hcount] at hi
      refine ⟨hrows i hi, ?_⟩
      show 50 ≤ (List.take ChunkMaxSize (List.drop (i * ChunkMaxSize) preq.Body)).length
      rw [List.length_take, List.length_drop]
      have hB := ChunkMaxSize_eq
      generalize preq.Body.length = L at hi hlong ⊢
      rw [hB] at hi hlong ⊢
      omega)
  refine ⟨w1, w2, h1, hresp, h2, hs, ?_⟩
  rw [hb, hcount]
  apply slices_concat
  have hB := ChunkMaxSize_eq
  generalize preq.Body.length = L
  rw [hB]
  omega

/-- Where the round trip fails on the code: under the same conditions, when
the body length is not a multiple of `ChunkMaxSize` and the last chunk has
fewer than 50 bytes (as for `L = ChunkMaxSize + 1`), the PUT stores every
chunk, but the GET writes the chunks before the last one followed by the
error line of the slice panic, which is not the body that was PUT. -/
theorem ServeHTTP_put_get_short_tail (st : Store) (f1 f2 : Nat → Option String)
    (preq greq : Request) (bucket name : String)
    (hm : preq.Method = "PUT") (hgm : greq.Method = "GET") (hgp : greq.Path = preq.Path)
    (hpath : splitPath preq.Path = .ok (bucket, name))
    (hnew : st.objects bucket name = none)
    (hhdr : headerGet preq.Header "Content-Length" ≠ "")
    (hcl : ParseInt (headerGet preq.Header "Content-Length").data =
      .ok (preq.Body.length : Int))
    (heof : preq.BodyErr = none)
    (hok1 : ∀ i, f1 i = none) (hok2 : ∀ i, f2 i = none)
    (hshort : 0 < preq.Body.length % ChunkMaxSize ∧ preq.Body.length % ChunkMaxSize < 50) :
    ∃ w1 w2, ServeHTTP (World.start st f1) preq = some w1 ∧ w1.resp = [] ∧
      (∀ i, i < (preq.Body.length + ChunkMaxSize - 1) / ChunkMaxSize →
        w1.store.chunks bucket name i =
          some ((preq.Body.drop (i * ChunkMaxSize)).take ChunkMaxSize)) ∧
      ServeHTTP (World.start w1.store f2) greq = some w2 ∧
      bodyWritten w2.resp =
        (List.range (preq.Body.length / ChunkMaxSize)).flatMap
          (fun i => (preq.Body.drop (i * ChunkMaxSize)).take ChunkMaxSize) ++
        stringBytes ("err: " ++
          (PanicVal.sliceBounds 100 (2 * (preq.Body.length % ChunkMaxSize))).message ++ "\n") ∧
      bodyWritten w2.resp ≠ preq.Body := by
  obtain ⟨w1, row, h1, hresp, hobj, hrcl, hrows⟩ :=
    ServeHTTP_put_stores st f1 preq bucket name _ hm hpath hnew hhdr hcl heof hok1
  have hB := ChunkMaxSize_eq
  have hceil : (preq.Body.length + ChunkMaxSize - 1) / ChunkMaxSize =
      preq.Body.length / ChunkMaxSize + 1 := by
    generalize preq.Body.length = L at hshort ⊢
    rw [hB] at hshort ⊢
    omega
  have hcount : (chunkCount row.content_length).toNat =
      preq.Body.length / ChunkMaxSize + 1 := by
    rw [hrcl, chunkCount_natCast, hceil]
  have hgpath : splitPath greq.Path = .ok (bucket, name) := by rw [hgp]; exact hpath
  have hlast : ((preq.Body.drop (preq.Body.length / ChunkMaxSize * ChunkMaxSize)).take
      ChunkMaxSize).length = preq.Body.length % ChunkMaxSize := by
    rw [List.length_take, List.length_drop]
    generalize preq.Body.length = L at hshort ⊢
    rw [hB] at hshort ⊢
    omega
  obtain ⟨w2, h2, -, hb⟩ := ServeHTTP_get_short w1.store f2 greq bucket name row
    (fun i => (preq.Body.drop (i * ChunkMaxSize)).take ChunkMaxSize)
    (preq.Body.length / ChunkMaxSize) hgm hgpath hobj hok2
    (by rw [hcount]; exact Nat.lt_succ_self _)
    (by
      intro i hi
      refine ⟨hrows i (by rw [hceil]; omega), ?_⟩
      show 50 ≤ (List.take ChunkMaxSize (List.drop (i * ChunkMaxSize) preq.Body)).length
      rw [List.length_take, List.length_drop]
      generalize preq.Body.length = L at hi hshort ⊢
      rw [hB] at hi hshort ⊢
      omega)
    (hrows _ (by rw [hceil]; exact Nat.lt_succ_self _))
    (by
      show (List.take ChunkMaxSize (List.drop (preq.Body.length / ChunkMaxSize * ChunkMaxSize)
        preq.Body)).length < 50
      rw [hlast]
      exact hshort.2)
  have hb2 : bodyWritten w2.resp =
      (List.range (preq.Body.length / ChunkMaxSize)).flatMap
        (fun i => (preq.Body.drop (i * ChunkMaxSize)).take ChunkMaxSize) ++
      stringBytes ("err: " ++
        (PanicVal.sliceBounds 100 (2 * (preq.Body.length % ChunkMaxSize))).message ++ "\n") := by
    rw [hb]
    show _ ++ stringBytes ("err: " ++ (PanicVal.sliceBounds 100 (2 *
      (List.take ChunkMaxSize (List.drop (preq.Body.length / ChunkMaxSize * ChunkMaxSize)
        preq.Body)).length)).message ++ "\n") = _
    rw [hlast]
  refine ⟨w1, w2, h1, hresp, hrows, h2, hb2, ?_⟩
  intro heq
  have hbody := slices_concat (preq.Body.length / ChunkMaxSize + 1) preq.Body (by
    generalize preq.Body.length = L
    rw [hB]
    omega)
  rw [List.range_succ, List.flatMap_append] at hbody
  rw [hb2] at heq
  have hcancel := List.append_cancel_left (heq.trans hbody.symm)
  have hlen := congrArg List.length hcancel
  have hline := sliceLine_length (2 * (preq.Body.length % ChunkMaxSize))
  rw [List.flatMap_singleton, hlast] at hlen
  omega

/-! ## Chunk insert failures in the write loop -/

theorem storeChunk_fail (w : World) (bucket name : String) (chunk : Bytes) (k : Nat)
    (msg : String) (hne : chunk ≠ []) (hf : w.faults w.ops.length = some msg) :
    storeChunk w bucket name chunk k = (some (.Failure msg), chunk,
      { w with ops := w.ops ++ [StoreOp.insertChunk bucket name k chunk] }) := by
  have hl : chunk.length ≠ 0 := by
    intro h; exact hne (List.length_eq_zero.mp h)
  unfold storeChunk execInsertChunk
  rw [if_neg hl, hf]

/-- With a body stream that ends in `io.EOF` the write loop returns normally
whatever the fault oracle says: a failing chunk insert never makes it panic,
and it never touches the response writer. -/
theorem putLoop_eof_ok (fuel : Nat) :
    ∀ (w : World) (bucket name : String) (reader chunk : Bytes) (k : Nat),
      reader.length < fuel →
      ∃ w1, putLoop fuel w bucket name reader none chunk k = some (.ok (), w1) ∧
        w1.resp = w.resp := by
  induction fuel with
  | zero => intro w bucket name reader chunk k h; omega
  | succ fuel ih =>
    intro w bucket name reader chunk k h
    unfold putLoop
    simp only
    by_cases hfull : (List.take ChunkMaxSize reader).length = ChunkMaxSize
    · have hlen : ChunkMaxSize ≤ reader.length := by
        rw [List.length_take] at hfull; omega
      have hdrop : (List.drop ChunkMaxSize reader).length < fuel := by
        have := ChunkMaxSize_pos
        rw [List.length_drop]; omega
      have hge : (chunk ++ List.take ChunkMaxSize reader).length ≥ ChunkMaxSize := by
        rw [List.length_append, hfull]; omega
      rw [if_pos hfull, if_pos hge]
      have hsc := storeChunk_world w bucket name (chunk ++ List.take ChunkMaxSize reader) k
      rcases hst : storeChunk w bucket name (chunk ++ List.take ChunkMaxSize reader) k with
        ⟨e, c2, w1⟩
      rw [hst] at hsc
      simp only at hsc ⊢
      obtain ⟨w2, hrun, hresp⟩ :=
        ih w1 bucket name (List.drop ChunkMaxSize reader) c2 (k + 1) hdrop
      exact ⟨w2, hrun, by rw [hresp, hsc.1]⟩
    · rw [if_neg hfull]
      have hsc := storeChunk_world w bucket name (chunk ++ List.take ChunkMaxSize reader) k
      rcases hst : storeChunk w bucket name (chunk ++ List.take ChunkMaxSize reader) k with
        ⟨e, c2, w1⟩
      rw [hst] at hsc
      simp only at hsc ⊢
      exact ⟨w1, rfl, hsc.1⟩

/-- Whatever chunk inserts fail, a PUT that got past the count lookup and the
metadata insert is answered as a success: the handler returns normally, makes
no call on the response writer, and the status sent is 200. -/
theorem ServeHTTP_put_chunk_faults_ignored (st : Store) (f : Nat → Option String)
    (req : Request) (bucket name : String) (cl : Int)
    (hm : req.Method = "PUT")
    (hpath : splitPath req.Path = .ok (bucket, name))
    (hnew : st.objects bucket name = none)
    (hhdr : headerGet req.Header "Content-Length" ≠ "")
    (hcl : ParseInt (headerGet req.Header "Content-Length").data = .ok cl)
    (heof : req.BodyErr = none)
    (h0 : f 0 = none) (h1 : f 1 = none) :
    ∃ w1, ServeHTTP (World.start st f) req = some w1 ∧ w1.resp = [] ∧
      statusSent w1.resp = 200 := by
  unfold ServeHTTP
  rw [if_pos hm]
  unfold dataPut
  rw [hpath]
  simp only
  unfold queryCount
  have hf0 : (World.start st f).faults (World.start st f).ops.length = none := h0
  have hn0 : (World.start st f).store.objects bucket name = none := hnew
  rw [hf0, hn0]
  simp only [Option.isSome_none]
  rw [if_neg (by decide), if_neg hhdr, hcl]
  simp only
  generalize ((if headerGet req.Header "Content-Type" ≠ "" then
      [("content-type", headerGet req.Header "Content-Type")] else []) ++
    (if headerGet req.Header "Content-Encoding" ≠ "" then
      [("content-encoding", headerGet req.Header "Content-Encoding")] else [])) = md
  unfold execInsertObject
  have hf1 : (World.start st f).faults
      ({ World.start st f with
        ops := (World.start st f).ops ++ [StoreOp.countObjects bucket name] } : World).ops.length =
      none := h1
  rw [hf1]
  simp only
  rw [heof]
  obtain ⟨w1, hput, hresp⟩ := putLoop_eof_ok (req.Body.length + 1)
    { World.start st f with
      ops := (World.start st f).ops ++ [StoreOp.countObjects bucket name] ++
        [StoreOp.insertObject bucket name cl md]
      store := { (World.start st f).store with
        objects := fun b n =>
          if b = bucket ∧ n = name then
            some { content_length := cl, created := (World.start st f).store.clock,
                   metadata := md }
          else (World.start st f).store.objects b n } }
    bucket name req.Body [] 0 (Nat.lt_succ_self _)
  have hr : w1.resp = [] := hresp
  refine ⟨w1, ?_, hr, by rw [hr]; rfl⟩
  show Option.map recoverPanic (putLoop _ _ _ _ _ _ _ _) = _
  rw [hput]
  rfl

/-- After a failed chunk insert the handler goes on: for a body of
`ChunkMaxSize + 1` bytes where only the insert of chunk 0 (the third query)
fails, `dataPut` still issues a fourth query, the insert of chunk 1, and
because the buffer was not reset that row holds the whole body; the handler
returns normally. -/
theorem dataPut_continues_after_failed_insert (st : Store) (req : Request)
    (bucket name : String) (cl : Int)
    (hpath : splitPath req.Path = .ok (bucket, name))
    (hnew : st.objects bucket name = none)
    (hhdr : headerGet req.Header "Content-Length" ≠ "")
    (hcl : ParseInt (headerGet req.Header "Content-Length").data = .ok cl)
    (heof : req.BodyErr = none)
    (hL : req.Body.length = ChunkMaxSize + 1) :
    ∃ w1 md, dataPut (World.start st (faultAt 2)) req = some (.ok (), w1) ∧
      w1.ops = [StoreOp.countObjects bucket name, StoreOp.insertObject bucket name cl md,
        StoreOp.insertChunk bucket name 0 (req.Body.take ChunkMaxSize),
        StoreOp.insertChunk bucket name 1 req.Body] ∧
      w1.resp = [] := by
  unfold dataPut
  rw [hpath]
  simp only
  unfold queryCount
  have hf0 : (World.start st (faultAt 2)).faults (World.start st (faultAt 2)).ops.length =
      none := rfl
  have hn0 : (World.start st (faultAt 2)).store.objects bucket name = none := hnew
  rw [hf0, hn0]
  simp only [Option.isSome_none]
  rw [if_neg (by decide), if_neg hhdr, hcl]
  simp only
  generalize ((if headerGet req.Header "Content-Type" ≠ "" then
      [("content-type", headerGet req.Header "Content-Type")] else []) ++
    (if headerGet req.Header "Content-Encoding" ≠ "" then
      [("content-encoding", headerGet req.Header "Content-Encoding")] else [])) = md
  unfold execInsertObject
  have hf1 : (World.start st (faultAt 2)).faults
      ({ World.start st (faultAt 2) with
        ops := (World.start st (faultAt 2)).ops ++ [StoreOp.countObjects bucket name] } :
        World).ops.length = none := rfl
  rw [hf1]
  simp only
  rw [heof, hL]
  have hpos := ChunkMaxSize_pos
  have hB := ChunkMaxSize_eq
  have hfull : (List.take ChunkMaxSize req.Body).length = ChunkMaxSize := by
    rw [List.length_take, hL]; omega
  have hne : List.take ChunkMaxSize req.Body ≠ [] := by
    intro h0
    rw [h0, List.length_nil] at hfull
    omega
  have hdl : (List.drop ChunkMaxSize req.Body).length = 1 := by
    rw [List.length_drop, hL]; omega
  have htd : List.take ChunkMaxSize (List.drop ChunkMaxSize req.Body) =
      List.drop ChunkMaxSize req.Body :=
    List.take_of_length_le (by rw [hdl]; omega)
  have hnfull : ¬ (List.take ChunkMaxSize (List.drop ChunkMaxSize req.Body)).length =
      ChunkMaxSize := by
    rw [htd, hdl, hB]; decide
  have hbody : List.take ChunkMaxSize req.Body ++
      List.take ChunkMaxSize (List.drop ChunkMaxSize req.Body) = req.Body := by
    rw [htd, List.take_append_drop]
  have hbne : req.Body ≠ [] := by
    intro h0
    rw [h0, List.length_nil] at hL
    omega
  unfold putLoop
  simp only [List.nil_append]
  rw [if_pos hfull, if_pos (Nat.le_of_eq hfull.symm)]
  rw [storeChunk_fail _ bucket name _ 0 "no hosts available" hne rfl]
  simp only
  unfold putLoop
  simp only
  rw [if_neg hnfull, hbody]
  rw [storeChunk_ok _ bucket name _ 1 hbne rfl]
  exact ⟨_, md, rfl, rfl, rfl⟩

/-! ## Reading back a short chunk (C1) -/

/-- C1 fails on the code for a one-byte object: PUT `/b1/obj1` with
`Content-Length: 1` and body `A` on the empty store, every query succeeding,
stores the object row and chunk 0 holding that byte.  The following GET
finds both, but the log line slices the 2-character hex string of the chunk
to 100 characters and panics before `Write`: the calls on the response are
`Content-Length: 1`, `WriteHeader(200)`, `WriteHeader(500)` and the error
line, and the body written is not the byte that was PUT. -/
theorem ServeHTTP_put_get_one_byte :
    (ServeHTTP (World.start emptyStore noFaults) (putRequest "/b1/obj1" "1" [65])).map
      (fun w => (w.ops, w.resp, w.store.chunks "b1" "obj1" 0,
        (w.store.objects "b1" "obj1").map ObjectRow.content_length)) =
      some ([StoreOp.countObjects "b1" "obj1", StoreOp.insertObject "b1" "obj1" 1 [],
        StoreOp.insertChunk "b1" "obj1" 0 [65]], [], some [65], some 1) ∧
    ((ServeHTTP (World.start emptyStore noFaults) (putRequest "/b1/obj1" "1" [65])).bind
      (fun w => ServeHTTP (World.start w.store noFaults) (getRequest "/b1/obj1"))).map
      (fun w => (w.ops, w.resp)) =
      some ([StoreOp.selectObject "b1" "obj1", StoreOp.selectChunk "b1" "obj1" 0],
        [RespEvent.SetHeader "Content-Length" "1", RespEvent.WriteHeader 200,
          RespEvent.WriteHeader 500,
          RespEvent.Write (stringBytes
            "err: runtime error: slice bounds out of range [:100] with length 2\n")]) ∧
    ((ServeHTTP (World.start emptyStore noFaults) (putRequest "/b1/obj1" "1" [65])).bind
      (fun w => ServeHTTP (World.start w.store noFaults) (getRequest "/b1/obj1"))).map
      (fun w => bodyWritten w.resp) ≠ some [65] := by
  decide

/-! ## A failing chunk insert (C4) -/

/-- C4 fails on the code for a failing chunk insert: PUT `/b1/obj1` with a
one-byte body on the empty store, where the third query (the chunk insert)
fails.  `dataPut` drops the error `storeChunk` returns, so the handler
returns normally: nothing is written to the response, the status sent is
200, the object row is stored and chunk 0 is not. -/
theorem ServeHTTP_put_chunk_insert_fails :
    (ServeHTTP (World.start emptyStore (faultAt 2)) (putRequest "/b1/obj1" "1" [65])).map
      (fun w => (w.ops, w.resp, statusSent w.resp)) =
      some ([StoreOp.countObjects "b1" "obj1", StoreOp.insertObject "b1" "obj1" 1 [],
        StoreOp.insertChunk "b1" "obj1" 0 [65]], [], 200) ∧
    (ServeHTTP (World.start emptyStore (faultAt 2)) (putRequest "/b1/obj1" "1" [65])).map
      (fun w => (w.store.chunks "b1" "obj1" 0,
        (w.store.objects "b1" "obj1").map ObjectRow.content_length)) =
      some (none, some 1) ∧
    (storeChunk
      (World.mk emptyStore (faultAt 2)
        [StoreOp.countObjects "b1" "obj1", StoreOp.insertObject "b1" "obj1" 1 []] [])
      "b1" "obj1" [65] 0).1 = some (StoreErr.Failure "no hosts available") := by
  decide

end ObjectDB
